import Mathlib

/-!
# Verification of the Protobuf-Decoder core

A shallow embedding of the decoding engine of the Protobuf-Decoder
repository (`src/services/protobufDecoder.ts` and
`src/services/jsonConverter.ts`) together with theorems settling the
specification claims about it.

Conventions of the embedding:
* JavaScript `Uint8Array` buffers are `List Nat` (each entry a byte value).
* JavaScript `bigint` values are `Nat` (unsigned accumulators) or `Int`
  (signed reinterpretations); JavaScript big-integer arithmetic is exact,
  as is Lean's.
* Thrown exceptions are `Except` errors.  A thrown decode error carries the
  message together with the reader position at throw time, because the
  source inspects `reader.getPosition()` inside its `catch` block.
* IEEE float reinterpretations (`asFloat` / `asDouble`) are represented by
  their raw little-endian bit patterns: the source keeps them only for
  display and no claim inspects their numeric float value.
* The per-call decoding loop of `decode` is expressed with an explicit
  structural budget (first argument of `decodeFromFuel`).  The entry point
  `decode` supplies `buffer.length + 1`, which dominates the number of
  loop steps and nested descents, since every decoded field consumes at
  least one byte and every nested payload is strictly shorter than its
  enclosing buffer.
-/

namespace ProtoDec

/-! ## Byte-level helpers (`hexToBytes`, `bytesToHex`, `zigzagDecode`) -/

/-- One lowercase hexadecimal digit. -/
def hexDigit (n : Nat) : Char :=
  if n = 0 then '0' else if n = 1 then '1' else if n = 2 then '2'
  else if n = 3 then '3' else if n = 4 then '4' else if n = 5 then '5'
  else if n = 6 then '6' else if n = 7 then '7' else if n = 8 then '8'
  else if n = 9 then '9' else if n = 10 then 'a' else if n = 11 then 'b'
  else if n = 12 then 'c' else if n = 13 then 'd' else if n = 14 then 'e'
  else 'f'

/-- Two-digit lowercase hex rendering of one byte, as produced by the
`HEX_TABLE` of the source. -/
def byteToHex (b : Nat) : String :=
  String.mk [hexDigit (b / 16 % 16), hexDigit (b % 16)]

/-- `bytesToHex`: space-separated lowercase hex dump of a buffer. -/
def bytesToHex (bytes : List Nat) : String :=
  String.intercalate " " (bytes.map byteToHex)

/-- Value of one hex character per the hand-rolled ranges of `hexToBytes`
(`0`-`9`, `a`-`f`, `A`-`F`); any other character is rejected. -/
def hexCharVal (c : Char) : Except String Nat :=
  let n := c.toNat
  if 48 ≤ n ∧ n ≤ 57 then .ok (n - 48)
  else if 97 ≤ n ∧ n ≤ 102 then .ok (n - 87)
  else if 65 ≤ n ∧ n ≤ 70 then .ok (n - 55)
  else .error "Invalid hex character"

/-- Pairwise conversion loop of `hexToBytes`. -/
def hexPairsToBytes : List Char → Except String (List Nat)
  | [] => .ok []
  | [_] => .error "Hex string must have an even length"
  | c1 :: c2 :: rest => do
    let v1 ← hexCharVal c1
    let v2 ← hexCharVal c2
    let tail ← hexPairsToBytes rest
    .ok ((v1 * 16 + v2) :: tail)

/-- `hexToBytes`: rejects odd-length input, then converts hex digit pairs to
bytes, throwing `"Invalid hex character"` on the first non-hex character.
(The source checks the length up front; checking it on the first odd
leftover character is equivalent because the char-pair loop only reaches
the leftover after all earlier pairs parsed.)  The thrown message never
mentions which character was invalid. -/
def hexToBytes (hex : String) : Except String (List Nat) :=
  if hex.length % 2 ≠ 0 then .error "Hex string must have an even length"
  else hexPairsToBytes hex.toList

/-- `zigzagDecode`: `(n >> 1n) ^ -(n & 1n)` on an unsigned big integer. -/
def zigzagDecode (n : Nat) : Int :=
  if n % 2 = 0 then (n / 2 : Int) else -((n / 2 : Int)) - 1

/-- Little-endian value of a byte list (first byte least significant),
as computed by `DataView.getUint32/getBigUint64` with `littleEndian`. -/
def leNat (bytes : List Nat) : Nat :=
  bytes.foldr (fun b acc => b % 256 + 256 * acc) 0

/-- Two's-complement signed reinterpretation of a `w`-bit unsigned value. -/
def toSigned (w : Nat) (n : Nat) : Int :=
  if n < 2 ^ (w - 1) then (n : Int) else (n : Int) - (2 ^ w : Nat)

/-! ## `ProtoReader`

The reader is a position over an immutable buffer.  Each read takes the
buffer and the current position and returns either the read value with
the new position, or the thrown message with the reader position at
throw time. -/

/-- Loop body of `ProtoReader.readVarint`.  The structural argument `k`
is the number of loop iterations still permitted by the loop condition
`pos < buffer.length`; the caller passes `buf.length - pos`, so `k = 0`
exactly when the cursor has reached the end of the buffer.  On the
buffer-end failure the source rewinds the cursor to `initialPos`; on the
too-long failure it does not (the cursor stays just past the last
consumed byte). -/
def readVarintAux (buf : List Nat) (initialPos : Nat) :
    Nat → Nat → Nat → Nat → Except (String × Nat) (Nat × Nat)
  | 0, _, _, _ => .error ("Unterminated varint", initialPos)
  | k + 1, pos, result, shift =>
    let byte := buf.getD pos 0
    let result := result ||| ((byte &&& 127) <<< shift)
    if byte &&& 128 = 0 then .ok (result, pos + 1)
    else if 64 ≤ shift + 7 then .error ("Varint is too long or invalid.", pos + 1)
    else readVarintAux buf initialPos k (pos + 1) result (shift + 7)

/-- `ProtoReader.readVarint` starting at `pos`. -/
def readVarint (buf : List Nat) (pos : Nat) : Except (String × Nat) (Nat × Nat) :=
  readVarintAux buf pos (buf.length - pos) pos 0 0

/-- `ProtoReader.readFixed32`: four little-endian bytes; underflow throws
without advancing the cursor. -/
def readFixed32 (buf : List Nat) (pos : Nat) :
    Except (String × Nat) (List Nat × Nat) :=
  if pos + 4 ≤ buf.length then .ok ((buf.drop pos).take 4, pos + 4)
  else .error ("Buffer underflow for fixed32", pos)

/-- `ProtoReader.readFixed64`: eight little-endian bytes. -/
def readFixed64 (buf : List Nat) (pos : Nat) :
    Except (String × Nat) (List Nat × Nat) :=
  if pos + 8 ≤ buf.length then .ok ((buf.drop pos).take 8, pos + 8)
  else .error ("Buffer underflow for fixed64", pos)

/-- `ProtoReader.readBytes len`. -/
def readBytes (buf : List Nat) (pos len : Nat) :
    Except (String × Nat) (List Nat × Nat) :=
  if pos + len ≤ buf.length then .ok ((buf.drop pos).take len, pos + len)
  else .error ("Buffer underflow trying to read " ++ toString len ++ " bytes", pos)

/-! ## Strict UTF-8 decoding

`new TextDecoder("utf-8", { fatal: true }).decode(bytes)` accepts exactly
the well-formed UTF-8 encodings (no overlongs, no surrogates, no code
points above U+10FFFF) and throws otherwise.  `utf8Decode` returns `none`
exactly when the decoder would throw. -/

/-- A UTF-8 continuation byte (`0x80`–`0xBF`). -/
def isContByte (b : Nat) : Prop := 128 ≤ b ∧ b ≤ 191

instance (b : Nat) : Decidable (isContByte b) := by unfold isContByte; infer_instance

/-- Strict UTF-8 decoding to a code-point sequence (WHATWG ranges). -/
def utf8DecodeAux : List Nat → Option (List Char)
  | [] => some []
  | b :: rest =>
    if b ≤ 127 then
      (utf8DecodeAux rest).map (fun cs => Char.ofNat b :: cs)
    else if 194 ≤ b ∧ b ≤ 223 then
      match rest with
      | b1 :: rest' =>
        if isContByte b1 then
          (utf8DecodeAux rest').map
            (fun cs => Char.ofNat ((b - 192) * 64 + (b1 - 128)) :: cs)
        else none
      | _ => none
    else if 224 ≤ b ∧ b ≤ 239 then
      match rest with
      | b1 :: b2 :: rest' =>
        let lo1 : Nat := if b = 224 then 160 else 128
        let hi1 : Nat := if b = 237 then 159 else 191
        if (lo1 ≤ b1 ∧ b1 ≤ hi1) ∧ isContByte b2 then
          (utf8DecodeAux rest').map
            (fun cs => Char.ofNat ((b - 224) * 4096 + (b1 - 128) * 64 + (b2 - 128)) :: cs)
        else none
      | _ => none
    else if 240 ≤ b ∧ b ≤ 244 then
      match rest with
      | b1 :: b2 :: b3 :: rest' =>
        let lo1 : Nat := if b = 240 then 144 else 128
        let hi1 : Nat := if b = 244 then 143 else 191
        if (lo1 ≤ b1 ∧ b1 ≤ hi1) ∧ isContByte b2 ∧ isContByte b3 then
          (utf8DecodeAux rest').map
            (fun cs => Char.ofNat
              ((b - 240) * 262144 + (b1 - 128) * 4096 + (b2 - 128) * 64 + (b3 - 128)) :: cs)
        else none
      | _ => none
    else none

/-- Strict UTF-8 decode of a whole buffer to a string; `none` means the
fatal `TextDecoder` throws. -/
def utf8Decode (bytes : List Nat) : Option String :=
  (utf8DecodeAux bytes).map String.mk

/-- Engine message thrown by the fatal `TextDecoder`; its exact wording is
engine-specific and no claim depends on it. -/
def utf8ErrorMessage : String := "The encoded data was not valid for encoding utf-8"

/-! ## Parsed schema data model (`types.ts`) -/

/-- `FieldDef`. -/
structure FieldDef where
  name : String
  type : String
  fieldNumber : Nat
  isRepeated : Bool
  isMap : Bool
deriving DecidableEq, Repr

/-- `EnumDef`: `values` is the insertion-ordered `Map<number, string>`. -/
structure EnumDef where
  name : String
  values : List (Int × String)
deriving DecidableEq, Repr

/-- `MessageDef`. -/
structure MessageDef where
  name : String
  fields : List (Nat × FieldDef)
  enums : List (String × EnumDef)
deriving DecidableEq, Repr

/-- `ParsedSchema`. -/
structure ParsedSchema where
  messages : List (String × MessageDef)
  enums : List (String × EnumDef)
  rootMessage : Option String
deriving DecidableEq, Repr

/-- The schema used whenever decoding proceeds without (usable) schema
text: `{ messages: new Map(), enums: new Map(), rootMessage: null }`. -/
def emptySchema : ParsedSchema := ⟨[], [], none⟩

/-- `Map.get`: the value stored at `k`, if any (keys are unique because
`Map.set` overwrites). -/
def lookupKV {κ α : Type} [BEq κ] (m : List (κ × α)) (k : κ) : Option α :=
  (m.find? (fun p => p.1 == k)).map (fun p => p.2)

/-- `Map.set`: overwrite in place if present (keeping insertion order),
else append. -/
def setKV {κ α : Type} [BEq κ] (m : List (κ × α)) (k : κ) (v : α) : List (κ × α) :=
  if (m.find? (fun p => p.1 == k)).isSome then
    m.map (fun p => if p.1 == k then (p.1, v) else p)
  else m ++ [(k, v)]

/-- JavaScript `a || b` on strings (empty string is falsy). -/
def orElseStr (a : Option String) (b : String) : String :=
  match a with
  | some s => if s = "" then b else s
  | none => b

/-! ## Decoded field tree (`DecodedField` / `Content`) -/

/-- A JavaScript number as stored by the decoder: an exact integer, or an
IEEE float/double identified by its raw little-endian bit pattern (the
source keeps floats only for display; no claim inspects their value). -/
inductive JsNum where
  | int : Int → JsNum
  | f32Bits : Nat → JsNum
  | f64Bits : Nat → JsNum
deriving DecidableEq, Repr

/-- One element of a packed repeated field: the source pushes `bigint`s
for varint-backed and 64-bit fixed types and `number`s for 32-bit fixed
and float/double types, and the JSON projector distinguishes the two. -/
inductive PackedVal where
  | big : Int → PackedVal
  | num : JsNum → PackedVal
deriving DecidableEq, Repr

mutual

/-- The `content` union of a decoded field.  `varintC` carries
`asUint`/`asSint`/`enumValue`; `fixed32C`/`fixed64C` carry
`asUint`/`asInt` (their `asFloat`/`asDouble` reinterpretations are the
same little-endian bytes, i.e. recoverable from `asUint`). -/
inductive Content where
  | str : String → Content
  | msg : List DField → Content
  | packed : List PackedVal → Content
  | varintC : Nat → Int → Option String → Content
  | fixed32C : Nat → Int → Content
  | fixed64C : Nat → Int → Content

/-- `DecodedField`: byte range (inclusive, absolute), field number, schema
field name, wire type, type name, content, raw bytes, payload start. -/
inductive DField where
  | mk : Nat × Nat → Nat → Option String → Nat → String → Content →
      List Nat → Option Nat → DField

end

/-- Inclusive absolute byte range of the whole field. -/
def DField.byteRange : DField → Nat × Nat
  | .mk br _ _ _ _ _ _ _ => br

/-- Field number decoded from the tag. -/
def DField.fieldNumber : DField → Nat
  | .mk _ n _ _ _ _ _ _ => n

/-- Schema field name, when a definition matched. -/
def DField.fieldName : DField → Option String
  | .mk _ _ fn _ _ _ _ _ => fn

/-- Wire type (0, 1, 2 or 5). -/
def DField.wireType : DField → Nat
  | .mk _ _ _ w _ _ _ _ => w

/-- Schema type name or heuristic label. -/
def DField.typeName : DField → String
  | .mk _ _ _ _ tn _ _ _ => tn

/-- Decoded content. -/
def DField.content : DField → Content
  | .mk _ _ _ _ _ c _ _ => c

/-- Exact byte slice spanned by `byteRange`. -/
def DField.rawBytes : DField → List Nat
  | .mk _ _ _ _ _ _ rb _ => rb

/-- Absolute payload start offset for length-delimited fields. -/
def DField.payloadStartOffset : DField → Option Nat
  | .mk _ _ _ _ _ _ _ ps => ps

/-- `DecodeResult`: decoded fields plus the optional error diagnostics. -/
structure DecodeResult where
  fields : List DField
  error : Option String := none
  unparsedHex : Option String := none
  errorBytePos : Option Nat := none

/-- The result built by `decode`'s `catch` block: all fields decoded so
far, the message with the absolute offset appended, the hex rendering of
the remaining bytes, and the absolute offset itself. -/
def mkErr (fields : List DField) (m : String) (p base : Nat)
    (buffer : List Nat) : DecodeResult :=
  { fields := fields
  , error := some (m ++ " at byte " ++ toString (p + base) ++ ".")
  , unparsedHex := some (bytesToHex (buffer.drop p))
  , errorBytePos := some (p + base) }

/-- The `DecodedField` record pushed after one successful field decode:
`byteRange = [start + base, end - 1 + base]` and
`rawBytes = buffer.subarray(start, end)`. -/
def mkDF (buffer : List Nat) (base startP endP fieldNumber : Nat)
    (fieldName : Option String) (wireType : Nat) (typeName : String)
    (content : Content) (payloadStart : Option Nat) : DField :=
  .mk (startP + base, endP - 1 + base) fieldNumber fieldName wireType typeName
    content ((buffer.drop startP).take (endP - startP)) payloadStart

/-! ## Packed repeated fields -/

/-- `packablePrimitiveTypes`. -/
def packablePrimitiveTypes : List String :=
  ["int32", "int64", "uint32", "uint64", "sint32", "sint64",
   "bool", "enum",
   "fixed32", "sfixed32", "float",
   "fixed64", "sfixed64", "double"]

/-- The packed-payload loop over its own `ProtoReader`.  The structural
budget `k` bounds the loop iterations; the entry point passes
`bytes.length + 1`, which suffices because every successful read advances
the cursor (a type outside the switch would loop forever in the source and
is unreachable behind the `packablePrimitiveTypes` guard). -/
def decodePackedAux (t : String) (bytes : List Nat) :
    Nat → Nat → List PackedVal → Except (String × Nat) (List PackedVal)
  | 0, pos, _ => .error ("Out of fuel", pos)
  | k + 1, pos, accV =>
    if pos < bytes.length then
      if t = "int32" ∨ t = "int64" ∨ t = "uint32" ∨ t = "uint64" ∨
          t = "bool" ∨ t = "enum" then
        match readVarint bytes pos with
        | .error e => .error e
        | .ok (v, p') => decodePackedAux t bytes k p' (accV ++ [.big (Int.ofNat v)])
      else if t = "sint32" ∨ t = "sint64" then
        match readVarint bytes pos with
        | .error e => .error e
        | .ok (v, p') => decodePackedAux t bytes k p' (accV ++ [.big (zigzagDecode v)])
      else if t = "fixed32" then
        match readFixed32 bytes pos with
        | .error e => .error e
        | .ok (bs, p') => decodePackedAux t bytes k p' (accV ++ [.num (.int (leNat bs))])
      else if t = "sfixed32" then
        match readFixed32 bytes pos with
        | .error e => .error e
        | .ok (bs, p') => decodePackedAux t bytes k p' (accV ++ [.num (.int (toSigned 32 (leNat bs)))])
      else if t = "float" then
        match readFixed32 bytes pos with
        | .error e => .error e
        | .ok (bs, p') => decodePackedAux t bytes k p' (accV ++ [.num (.f32Bits (leNat bs))])
      else if t = "fixed64" then
        match readFixed64 bytes pos with
        | .error e => .error e
        | .ok (bs, p') => decodePackedAux t bytes k p' (accV ++ [.big (Int.ofNat (leNat bs))])
      else if t = "sfixed64" then
        match readFixed64 bytes pos with
        | .error e => .error e
        | .ok (bs, p') => decodePackedAux t bytes k p' (accV ++ [.big (toSigned 64 (leNat bs))])
      else if t = "double" then
        match readFixed64 bytes pos with
        | .error e => .error e
        | .ok (bs, p') => decodePackedAux t bytes k p' (accV ++ [.num (.f64Bits (leNat bs))])
      else
        decodePackedAux t bytes k pos accV
    else .ok accV

/-- Decode one packed payload for field type `t`. -/
def decodePacked (t : String) (bytes : List Nat) :
    Except (String × Nat) (List PackedVal) :=
  decodePackedAux t bytes (bytes.length + 1) 0 []

/-! ## Schema-less heuristic cascade -/

/-- The three-way guess applied to a `LENGTH_DELIMITED` payload with no
usable schema information, given the result `sub` of the schema-less
nested decode attempt on the payload: accept it as an embedded message
unless it produced an internal error or decoded a non-empty payload to
zero fields; otherwise try strict UTF-8; otherwise render hex.  This
function is total: it always produces a displayable content. -/
def guessContent (sub : DecodeResult) (bytes : List Nat) : Content × String :=
  if sub.error.isNone ∧ ¬(0 < bytes.length ∧ sub.fields.length = 0) then
    (.msg sub.fields, "Embedded Message")
  else
    match utf8Decode bytes with
    | some s => (.str s, "string (guessed)")
    | none => (.str (bytesToHex bytes), "bytes")

/-- `messageDef`: `currentMessageName ? schema.messages.get(...) :
undefined` (the empty string is falsy in JavaScript). -/
def getMessageDef (schema : ParsedSchema) (msgName : Option String) :
    Option MessageDef :=
  match msgName with
  | some n => if n = "" then none else lookupKV schema.messages n
  | none => none

/-- Enum resolution for a varint value: nested enums of the active message
first, then global enums; a nested enum that lacks the value does not fall
through to the global table.  (The source converts the `bigint` with
`Number(...)`, which is exact below `2^53`; the embedding keeps the exact
value.) -/
def resolveEnum (schema : ParsedSchema) (messageDef : Option MessageDef)
    (fieldDef : Option FieldDef) (v : Nat) : Option String :=
  match fieldDef with
  | none => none
  | some fd =>
    match messageDef.bind (fun md => lookupKV md.enums fd.type) with
    | some ne => lookupKV ne.values (Int.ofNat v)
    | none =>
      match lookupKV schema.enums fd.type with
      | some ge => lookupKV ge.values (Int.ofNat v)
      | none => none

/-! ## The recursive wire-format decoder (`decode`) -/

/-- The decoding loop of `decode`, with the try/catch of the source
expressed by `mkErr` exits.  Arguments: structural budget, schema, active
message name, buffer, base offset, cursor, fields decoded so far.

Every recursive call passes the predecessor budget: the loop continuation
strictly advances the cursor and a nested payload is strictly shorter
than its enclosing buffer, so the `buffer.length + 1` budget supplied by
`decode` is never exhausted (the budget-exhausted branch exists only to
make the recursion structural). -/
def decodeFromFuel : Nat → ParsedSchema → Option String → List Nat → Nat → Nat →
    List DField → DecodeResult
  | 0, _, _, buffer, base, pos, acc => mkErr acc "Out of fuel" pos base buffer
  | fuel + 1, schema, msgName, buffer, base, pos, acc =>
    if pos < buffer.length then
      match readVarint buffer pos with
      | .error (m, p) => mkErr acc m p base buffer
      | .ok (tag, posT) =>
        let fieldNumber := tag >>> 3
        let wireType := tag &&& 7
        let messageDef := getMessageDef schema msgName
        let fieldDef := messageDef.bind (fun md => lookupKV md.fields fieldNumber)
        let fname := fieldDef.map (fun fd => fd.name)
        if wireType = 0 then
          match readVarint buffer posT with
          | .error (m, p) => mkErr acc m p base buffer
          | .ok (v, posE) =>
            let content := Content.varintC v (zigzagDecode v)
              (resolveEnum schema messageDef fieldDef v)
            let typeName := orElseStr (fieldDef.map (fun fd => fd.type)) "varint"
            decodeFromFuel fuel schema msgName buffer base posE
              (acc ++ [mkDF buffer base pos posE fieldNumber fname wireType
                typeName content none])
        else if wireType = 1 then
          match readFixed64 buffer posT with
          | .error (m, p) => mkErr acc m p base buffer
          | .ok (bs, posE) =>
            let u := leNat bs
            let content := Content.fixed64C u (toSigned 64 u)
            let typeName := orElseStr (fieldDef.map (fun fd => fd.type)) "fixed64"
            decodeFromFuel fuel schema msgName buffer base posE
              (acc ++ [mkDF buffer base pos posE fieldNumber fname wireType
                typeName content none])
        else if wireType = 2 then
          match readVarint buffer posT with
          | .error (m, p) => mkErr acc m p base buffer
          | .ok (lenN, posL) =>
            let payloadAbs := posL + base
            match readBytes buffer posL lenN with
            | .error (m, p) => mkErr acc m p base buffer
            | .ok (bytes, posE) =>
              match fieldDef with
              | some fd =>
                if fd.isRepeated = true ∧ packablePrimitiveTypes.contains fd.type then
                  match decodePacked fd.type bytes with
                  | .error (m, _) => mkErr acc m posE base buffer
                  | .ok vals =>
                    decodeFromFuel fuel schema msgName buffer base posE
                      (acc ++ [mkDF buffer base pos posE fieldNumber fname wireType
                        ("repeated " ++ fd.type) (.packed vals) (some payloadAbs)])
                else if (lookupKV schema.messages fd.type).isSome then
                  let sub := decodeFromFuel fuel schema (some fd.type) bytes payloadAbs 0 []
                  if sub.error.isSome then
                    mkErr acc ("Failed to decode sub-message of type " ++ fd.type)
                      posE base buffer
                  else
                    decodeFromFuel fuel schema msgName buffer base posE
                      (acc ++ [mkDF buffer base pos posE fieldNumber fname wireType
                        fd.type (.msg sub.fields) (some payloadAbs)])
                else if fd.type = "string" then
                  match utf8Decode bytes with
                  | some s =>
                    decodeFromFuel fuel schema msgName buffer base posE
                      (acc ++ [mkDF buffer base pos posE fieldNumber fname wireType
                        "string" (.str s) (some payloadAbs)])
                  | none => mkErr acc utf8ErrorMessage posE base buffer
                else if fd.type = "bytes" then
                  decodeFromFuel fuel schema msgName buffer base posE
                    (acc ++ [mkDF buffer base pos posE fieldNumber fname wireType
                      "bytes" (.str (bytesToHex bytes)) (some payloadAbs)])
                else
                  let sub := decodeFromFuel fuel schema none bytes payloadAbs 0 []
                  let g := guessContent sub bytes
                  decodeFromFuel fuel schema msgName buffer base posE
                    (acc ++ [mkDF buffer base pos posE fieldNumber fname wireType
                      g.2 g.1 (some payloadAbs)])
              | none =>
                let sub := decodeFromFuel fuel schema none bytes payloadAbs 0 []
                let g := guessContent sub bytes
                decodeFromFuel fuel schema msgName buffer base posE
                  (acc ++ [mkDF buffer base pos posE fieldNumber fname wireType
                    g.2 g.1 (some payloadAbs)])
        else if wireType = 5 then
          match readFixed32 buffer posT with
          | .error (m, p) => mkErr acc m p base buffer
          | .ok (bs, posE) =>
            let u := leNat bs
            let content := Content.fixed32C u (toSigned 32 u)
            let typeName := orElseStr (fieldDef.map (fun fd => fd.type)) "fixed32"
            decodeFromFuel fuel schema msgName buffer base posE
              (acc ++ [mkDF buffer base pos posE fieldNumber fname wireType
                typeName content none])
        else
          mkErr acc ("Unsupported wire type " ++ toString wireType) posT base buffer
    else { fields := acc }

/-- `decode(buffer, schema, currentMessageName, baseOffset)`. -/
def decode (buffer : List Nat) (schema : ParsedSchema)
    (msgName : Option String) (base : Nat) : DecodeResult :=
  decodeFromFuel (buffer.length + 1) schema msgName buffer base 0 []

/-! ## The permissive `.proto` schema parser (`parseProto`)

The source extracts schema structure with JavaScript regular expressions
(global, leftmost-match, lazy bodies up to the first closing brace).  The
embedding reproduces that scanning directly on character lists: at each
position the scanner tries to parse the pattern; on success it emits the
match and resumes after it, otherwise it advances one character.  The
scan loops carry a structural budget of `length + 1`, sufficient because
a successful parse always consumes at least one character. -/

/-- `\s` (ASCII subset; schema text is ASCII). -/
def isSpaceChar (c : Char) : Bool :=
  c = ' ' ∨ c = '\t' ∨ c = '\n' ∨ c = '\r' ∨ c = '\x0b' ∨ c = '\x0c'

/-- `\w` = `[A-Za-z0-9_]`. -/
def isWordChar (c : Char) : Bool :=
  ('a' ≤ c ∧ c ≤ 'z') ∨ ('A' ≤ c ∧ c ≤ 'Z') ∨ ('0' ≤ c ∧ c ≤ '9') ∨ c = '_'

/-- `[0-9]`. -/
def isDigitChar (c : Char) : Bool := '0' ≤ c ∧ c ≤ '9'

/-- Decimal value of a digit run. -/
def digitsToNat (l : List Char) : Nat :=
  l.foldl (fun a c => a * 10 + (c.toNat - 48)) 0

/-- Drop a literal character sequence. -/
def dropLit : List Char → List Char → Option (List Char)
  | [], l => some l
  | _ :: _, [] => none
  | k :: ks, c :: rest => if c = k then dropLit ks rest else none

/-- Skip to the end of the current line (the newline is kept). -/
def dropToEol : List Char → List Char
  | [] => []
  | '\n' :: rest => '\n' :: rest
  | _ :: rest => dropToEol rest

/-- Step 1: `/\/\/.*$/gm` — cut each line at its first `//`.  The budget
`length + 1` suffices because each comment skip consumes at least two
characters. -/
def stripLineCommentsAux : Nat → List Char → List Char
  | 0, l => l
  | _ + 1, [] => []
  | k + 1, '/' :: '/' :: rest => stripLineCommentsAux k (dropToEol rest)
  | k + 1, c :: rest => c :: stripLineCommentsAux k rest

/-- Line-comment stripping over a whole string. -/
def stripLineComments (s : String) : String :=
  String.mk (stripLineCommentsAux (s.toList.length + 1) s.toList)

/-- JavaScript `String.prototype.trim` over the ASCII whitespace the
schema parser cares about (the embedding avoids `String.trim`, whose
core implementation is not kernel-reducible). -/
def jsTrim (s : String) : String :=
  String.mk (((s.toList.dropWhile isSpaceChar).reverse.dropWhile isSpaceChar).reverse)

/-- Skip to just past the first `*/`, if any. -/
def dropBlockClose : List Char → Option (List Char)
  | [] => none
  | [_] => none
  | '*' :: '/' :: rest => some rest
  | _ :: rest => dropBlockClose rest

/-- Step 1 continued: `/\/\*[\s\S]*?\*\//g` — remove each `/* ... */`
span (an unterminated `/*` is left in place, as an unmatched lazy regex
would leave it). -/
def stripBlockAux : Nat → List Char → List Char
  | 0, l => l
  | _ + 1, [] => []
  | k + 1, '/' :: '*' :: rest =>
    (match dropBlockClose rest with
     | some r => stripBlockAux k r
     | none => '/' :: '*' :: rest)
  | k + 1, c :: rest => c :: stripBlockAux k rest

/-- `oneof\s+\w+\s*\{` then a lazy body up to the first `}`; returns the
captured body and the remaining input after the match. -/
def parseOneofAt : List Char → Option (List Char × List Char)
  | 'o' :: 'n' :: 'e' :: 'o' :: 'f' :: rest =>
    if (rest.takeWhile isSpaceChar).isEmpty then none
    else
      let r1 := rest.dropWhile isSpaceChar
      if (r1.takeWhile isWordChar).isEmpty then none
      else
        let r2 := (r1.dropWhile isWordChar).dropWhile isSpaceChar
        match r2 with
        | '{' :: r3 =>
          (match r3.dropWhile (fun c => c ≠ '}') with
           | '}' :: r4 => some (r3.takeWhile (fun c => c ≠ '}'), r4)
           | _ => none)
        | _ => none
  | _ => none

/-- Step 2: `/oneof\s+\w+\s*\{([\s\S]*?)\}/g` replaced by the body. -/
def flattenOneofAux : Nat → List Char → List Char
  | 0, l => l
  | _ + 1, [] => []
  | k + 1, c :: rest =>
    match parseOneofAt (c :: rest) with
    | some (body, after) => body ++ flattenOneofAux k after
    | none => c :: flattenOneofAux k rest

/-- `[A-Za-z_][A-Za-z0-9_]*`. -/
def parseIdentAt : List Char → Option (List Char × List Char)
  | [] => none
  | c :: rest =>
    if c.isAlpha ∨ c = '_' then
      some (c :: rest.takeWhile isWordChar, rest.dropWhile isWordChar)
    else none

/-- `<kw>\s+<ident>\s*\{<lazy body>\}` at the current position. -/
def parseBlockAt (kw : List Char) (l : List Char) :
    Option ((String × String) × List Char) :=
  match dropLit kw l with
  | none => none
  | some r0 =>
    if (r0.takeWhile isSpaceChar).isEmpty then none
    else
      match parseIdentAt (r0.dropWhile isSpaceChar) with
      | none => none
      | some (name, r2) =>
        match r2.dropWhile isSpaceChar with
        | '{' :: r4 =>
          (match r4.dropWhile (fun c => c ≠ '}') with
           | '}' :: r5 =>
             some ((String.mk name, String.mk (r4.takeWhile (fun c => c ≠ '}'))), r5)
           | _ => none)
        | _ => none

/-- Global leftmost-match scan: at each position try `parse`; on a match
emit it and resume after it, else advance one character.  The budget
`length + 1` suffices because a match consumes at least one character. -/
def scanAux {α : Type} (parse : List Char → Option (α × List Char)) :
    Nat → List Char → List α
  | 0, _ => []
  | _ + 1, [] => []
  | k + 1, c :: rest =>
    match parse (c :: rest) with
    | some (a, after) => a :: scanAux parse k after
    | none => scanAux parse k rest

/-- Run a global scan over a character list. -/
def scanAll {α : Type} (parse : List Char → Option (α × List Char))
    (l : List Char) : List α :=
  scanAux parse (l.length + 1) l

/-- `/([A-Za-z_][A-Za-z0-9_]*)\s*=\s*(-?\d+)\s*;/` at the current
position (enum value declaration; values may be negative). -/
def parseEnumValueAt (l : List Char) : Option ((String × Int) × List Char) :=
  match parseIdentAt l with
  | none => none
  | some (name, r1) =>
    match r1.dropWhile isSpaceChar with
    | '=' :: r3 =>
      let r4 := r3.dropWhile isSpaceChar
      let (neg, r5) := match r4 with
        | '-' :: t => (true, t)
        | _ => (false, r4)
      let digits := r5.takeWhile isDigitChar
      if digits.isEmpty then none
      else
        match (r5.dropWhile isDigitChar).dropWhile isSpaceChar with
        | ';' :: r7 =>
          let n : Int := Int.ofNat (digitsToNat digits)
          some ((String.mk name, if neg then -n else n), r7)
        | _ => none
    | _ => none

/-- Build an `EnumDef` from an enum body: `values.set(number, name)` in
match order (a repeated number overwrites). -/
def parseEnumBody (name body : String) : EnumDef :=
  ⟨name, (scanAll parseEnumValueAt body.toList).foldl
    (fun m p => setKV m p.2 p.1) []⟩

/-- `map<[\w\s,]+>` as a type token (returned verbatim). -/
def parseMapType (l : List Char) : Option (String × List Char) :=
  match dropLit ['m', 'a', 'p', '<'] l with
  | none => none
  | some r0 =>
    let isInner := fun c => isWordChar c ∨ isSpaceChar c ∨ c = ','
    let inner := r0.takeWhile isInner
    if inner.isEmpty then none
    else
      match r0.dropWhile isInner with
      | '>' :: r1 => some (String.mk ('m' :: 'a' :: 'p' :: '<' :: inner ++ ['>']), r1)
      | _ => none

/-- `[\w.]+` as a type token. -/
def parseDottedIdent (l : List Char) : Option (String × List Char) :=
  let isTy := fun c => isWordChar c ∨ c = '.'
  let w := l.takeWhile isTy
  if w.isEmpty then none else some (String.mk w, l.dropWhile isTy)

/-- After a type token: `\s+([\w_]+)\s*=\s*(\d+)\s*;`. -/
def parseFieldAfterType (ty : String) (r1 : List Char) :
    Option ((String × String × Nat) × List Char) :=
  if (r1.takeWhile isSpaceChar).isEmpty then none
  else
    let r2 := r1.dropWhile isSpaceChar
    let nm := r2.takeWhile isWordChar
    if nm.isEmpty then none
    else
      match (r2.dropWhile isWordChar).dropWhile isSpaceChar with
      | '=' :: r4 =>
        let r5 := r4.dropWhile isSpaceChar
        let digits := r5.takeWhile isDigitChar
        if digits.isEmpty then none
        else
          match (r5.dropWhile isDigitChar).dropWhile isSpaceChar with
          | ';' :: r7 => some ((ty, String.mk nm, digitsToNat digits), r7)
          | _ => none
      | _ => none

/-- `(map<[\w\s,]+>|[\w.]+)\s+([\w_]+)\s*=\s*(\d+)\s*;` with the regex's
alternation backtracking: if the `map<...>` alternative matches but the
tail fails, the `[\w.]+` alternative is still tried. -/
def parseFieldTail (l : List Char) : Option ((String × String × Nat) × List Char) :=
  match parseMapType l with
  | some (ty, r1) =>
    (match parseFieldAfterType ty r1 with
     | some x => some x
     | none => (parseDottedIdent l).bind (fun p => parseFieldAfterType p.1 p.2))
  | none => (parseDottedIdent l).bind (fun p => parseFieldAfterType p.1 p.2)

/-- `(?:(repeated)\s+)?` then the field tail, with backtracking to the
group-absent alternative when the tail fails after `repeated`. -/
def parseFieldAt (l : List Char) :
    Option ((Bool × String × String × Nat) × List Char) :=
  match dropLit ['r', 'e', 'p', 'e', 'a', 't', 'e', 'd'] l with
  | some r0 =>
    if (r0.takeWhile isSpaceChar).isEmpty then
      (parseFieldTail l).map (fun p => ((false, p.1), p.2))
    else
      (match parseFieldTail (r0.dropWhile isSpaceChar) with
       | some (x, rest) => some ((true, x), rest)
       | none => (parseFieldTail l).map (fun p => ((false, p.1), p.2)))
  | none => (parseFieldTail l).map (fun p => ((false, p.1), p.2))

/-- One scanned field declaration to a `FieldDef`
(`isRepeated := !!isRepeated || isMap`, `isMap := type.startsWith('map')`). -/
def mkFieldDef (x : Bool × String × String × Nat) : Nat × FieldDef :=
  let isMap := x.2.1.startsWith "map"
  (x.2.2.2, ⟨x.2.2.1, x.2.1, x.2.2.2, x.1 || isMap, isMap⟩)

/-- Fields map of one message body, in match order (`fields.set`). -/
def parseFieldsOfBody (body : String) : List (Nat × FieldDef) :=
  (scanAll parseFieldAt body.toList).foldl
    (fun m x => let p := mkFieldDef x; setKV m p.1 p.2) []

/-- Nested enums of one message body. -/
def parseEnumsOfBody (body : String) : List (String × EnumDef) :=
  (scanAll (parseBlockAt ['e', 'n', 'u', 'm']) body.toList).foldl
    (fun m p => setKV m p.1 (parseEnumBody p.1 p.2)) []

/-- Process one matched `message` block: merge fields and nested enums
into an existing same-named definition when the new block has at least
one field, otherwise store (overwriting any previous definition). -/
def addMessageBlock (m : List (String × MessageDef)) (p : String × String) :
    List (String × MessageDef) :=
  let fields := parseFieldsOfBody p.2
  let nestedEnums := parseEnumsOfBody p.2
  match lookupKV m p.1 with
  | some old =>
    if fields.length > 0 then
      setKV m p.1 ⟨old.name,
        fields.foldl (fun fm q => setKV fm q.1 q.2) old.fields,
        nestedEnums.foldl (fun em q => setKV em q.1 q.2) old.enums⟩
    else setKV m p.1 ⟨p.1, fields, nestedEnums⟩
  | none => setKV m p.1 ⟨p.1, fields, nestedEnums⟩

/-- `parseProto`: strip comments, flatten `oneof` wrappers, scan enums
(globally, message interiors included) and `message` blocks; the first
message becomes the root; fails with the `NoMessagesFound` message when
non-blank text yields no message definitions. -/
def parseProto (protoStr : String) : Except String (ParsedSchema × Option String) :=
  let l0 := (stripLineComments protoStr).toList
  let l1 := stripBlockAux (l0.length + 1) l0
  let clean := flattenOneofAux (l1.length + 1) l1
  let enums := (scanAll (parseBlockAt ['e', 'n', 'u', 'm']) clean).foldl
    (fun m p => setKV m p.1 (parseEnumBody p.1 p.2)) []
  let msgBlocks := scanAll (parseBlockAt ['m', 'e', 's', 's', 'a', 'g', 'e']) clean
  let rootMessage := msgBlocks.head?.map (fun p => p.1)
  let messages := msgBlocks.foldl addMessageBlock []
  if messages.length = 0 ∧ jsTrim protoStr ≠ "" then
    .error "Could not find any 'message' definitions in the schema."
  else .ok (⟨messages, enums, rootMessage⟩, rootMessage)

/-! ## Top-level entry (`decodeProtobuf`) -/

/-- The warning substituted for the error field when a parseable schema
matched zero fields but the schema-less retry found some. -/
def schemaMismatchWarning : String :=
  "Warning: The provided schema was parsed successfully but did not match the data. The result below is from a schema-less decoding attempt."

/-- The warning prepended when schema parsing throws; combined with any
fallback decoding error. -/
def schemaFailWarning (msg : String) : String :=
  "Schema parsing failed: \"" ++ msg ++ "\".\nFalling back to schema-less decoding."

/-- `decodeProtobuf` after input normalisation: empty/blank schema text
decodes schema-less directly; a schema parse failure falls back to
schema-less decoding with a warning prepended to any decode error; a
parseable schema that decodes zero fields from a non-empty buffer with no
error triggers a schema-less retry, returned (when it finds fields) with
the mismatch warning as its error. -/
def decodeProtobufBytes (bytes : List Nat) (protoSchema : String)
    (base : Nat) : DecodeResult :=
  if jsTrim protoSchema = "" then decode bytes emptySchema none base
  else
    match parseProto protoSchema with
    | .ok (schema, rootMessage) =>
      let result := decode bytes schema rootMessage base
      if result.fields.length = 0 ∧ 0 < bytes.length ∧ result.error.isNone then
        let schemaless := decode bytes emptySchema none base
        if 0 < schemaless.fields.length then
          { schemaless with error := some schemaMismatchWarning }
        else result
      else result
    | .error msg =>
      let fallback := decode bytes emptySchema none base
      { fallback with
        error := some (match fallback.error with
          | some e => schemaFailWarning msg ++ "\n\nDecoding Error: " ++ e
          | none => schemaFailWarning msg) }

/-- `decodeProtobuf`: hex-string input is converted by `hexToBytes`
first, whose exception propagates to the caller before any wire decoding
happens; byte input is decoded directly. -/
def decodeProtobuf (input : String ⊕ List Nat) (protoSchema : String)
    (base : Nat) : Except String DecodeResult :=
  match input with
  | .inl hexStr => (hexToBytes hexStr).map
      (fun bytes => decodeProtobufBytes bytes protoSchema base)
  | .inr bytes => .ok (decodeProtobufBytes bytes protoSchema base)

/-! ## JSON projection (`jsonConverter.ts`) -/

/-- A JSON-shaped JavaScript value as produced by the converter: numbers,
strings, arrays, and insertion-ordered objects. -/
inductive JsonValue where
  | jNum : JsNum → JsonValue
  | jStr : String → JsonValue
  | jArr : List JsonValue → JsonValue
  | jObj : List (String × JsonValue) → JsonValue

/-- `Number.MAX_SAFE_INTEGER`. -/
def maxSafeInteger : Nat := 2 ^ 53 - 1

/-- Narrow a JavaScript `bigint` to a number when it is within the safe
range, else to its decimal string. -/
def bigIntToJson (i : Int) : JsonValue :=
  if i ≤ (maxSafeInteger : Int) ∧ -(maxSafeInteger : Int) ≤ i then .jNum (.int i)
  else .jStr (toString i)

/-- Narrow an unsigned `bigint` (the source only checks the upper bound
for unsigned values). -/
def bigUintToJson (u : Nat) : JsonValue :=
  if u ≤ maxSafeInteger then .jNum (.int (Int.ofNat u)) else .jStr (toString u)

/-- One packed element: `bigint`s are narrowed, `number`s pass through. -/
def packedItemToJson : PackedVal → JsonValue
  | .big i => bigIntToJson i
  | .num n => .jNum n

/-- The in-place update / append of
`result.hasOwnProperty(key) ? push : assign`. -/
def pushJson (e v : JsonValue) : JsonValue :=
  match e with
  | .jArr xs => .jArr (xs ++ [v])
  | w => .jArr [w, v]

/-- Insert one key/value into the accumulating object: a repeated key is
promoted to an array (or appended if already an array), in place; a new
key is appended. -/
def objInsert (acc : List (String × JsonValue)) (k : String) (v : JsonValue) :
    List (String × JsonValue) :=
  if (acc.find? (fun p => p.1 == k)).isSome then
    acc.map (fun p => if p.1 == k then (p.1, pushJson p.2 v) else p)
  else acc ++ [(k, v)]

/-- `Array.isArray`. -/
def isJArr : JsonValue → Bool
  | .jArr _ => true
  | _ => false

/-- `Array.prototype.flat()` with default depth 1. -/
def flatOne : List JsonValue → List JsonValue
  | [] => []
  | .jArr ys :: rest => ys ++ flatOne rest
  | v :: rest => v :: flatOne rest

/-- The converter's post-pass: flatten one level every entry whose value
is an array containing at least one array (merging packed and promoted
occurrences of one key). -/
def jsonPostPass (entries : List (String × JsonValue)) :
    List (String × JsonValue) :=
  entries.map (fun p =>
    match p.2 with
    | .jArr xs => if xs.any isJArr then (p.1, .jArr (flatOne xs)) else (p.1, .jArr xs)
    | v => (p.1, v))

/-- The grouping key: `field.fieldName || unknown_field_<number>`. -/
def jsonKey (fieldName : Option String) (fieldNumber : Nat) : String :=
  orElseStr fieldName ("unknown_field_" ++ toString fieldNumber)

mutual

/-- `getPrimitiveValue(content, typeName)`.  Note the source's array
branch: a (possibly empty) array first checks `content.length > 0 &&
... 'fieldNumber' in content[0]`, so an empty child-field list falls into
the packed `map` branch and yields `[]`. -/
def getPrimitiveValue : Content → String → JsonValue
  | .str s, typeName =>
    if typeName = "string" ∨ typeName = "string (guessed)" then .jStr s
    else .jObj [("__hex__", .jStr s)]
  | .msg [], _ => .jArr []
  | .msg (f :: fs), _ => .jObj (jsonPostPass (insertFieldsJson (f :: fs) []))
  | .packed vs, _ => .jArr (vs.map packedItemToJson)
  | .varintC u s _, typeName =>
    if (typeName.toLower).startsWith "sint" then bigIntToJson s
    else bigUintToJson u
  | .fixed32C u i, typeName =>
    if typeName.toLower = "float" then .jNum (.f32Bits u)
    else if (typeName.toLower).startsWith "sfixed" then .jNum (.int i)
    else .jNum (.int (Int.ofNat u))
  | .fixed64C u i, typeName =>
    if typeName.toLower = "double" then .jNum (.f64Bits u)
    else if (typeName.toLower).startsWith "sfixed" then bigIntToJson i
    else bigUintToJson u

/-- The `fields.forEach` accumulation of `decodedFieldsToJson`. -/
def insertFieldsJson : List DField → List (String × JsonValue) →
    List (String × JsonValue)
  | [], acc => acc
  | .mk _ fn fname _ tn c _ _ :: fs, acc =>
    insertFieldsJson fs (objInsert acc (jsonKey fname fn) (getPrimitiveValue c tn))

end

/-- `decodedFieldsToJson`: group fields by key in encounter order, then
run the flattening post-pass. -/
def decodedFieldsToJson (fields : List DField) : JsonValue :=
  .jObj (jsonPostPass (insertFieldsJson fields []))

/-! ## Properties of `readVarint` -/

theorem lor_lt_two_pow {x y n : Nat} (hx : x < 2 ^ n) (hy : y < 2 ^ n) :
    x ||| y < 2 ^ n :=
  Nat.bitwise_lt_two_pow hx hy

/-- Success analysis of the varint loop: the cursor advances but by at
most `k`, the terminating byte has its high bit clear, the final shift
stayed below 64, and the value is bounded by the bits accumulated. -/
theorem readVarintAux_ok_spec (buf : List Nat) (ip : Nat) :
    ∀ (k pos r s v p' : Nat),
      readVarintAux buf ip k pos r s = .ok (v, p') →
      r < 2 ^ s → s < 64 →
      pos < p' ∧ p' ≤ pos + k ∧ s + 7 * (p' - 1 - pos) < 64 ∧
      v < 2 ^ (s + 7 * (p' - pos)) ∧
      (buf.getD (p' - 1) 0) &&& 128 = 0 := by
  intro k
  induction k with
  | zero => intro pos r s v p' h _ _; simp [readVarintAux] at h
  | succ k ih =>
    intro pos r s v p' h hr hs
    simp only [readVarintAux] at h
    have hb : (buf.getD pos 0) &&& 127 < 2 ^ 7 :=
      Nat.and_lt_two_pow _ (by norm_num)
    have hacc : r ||| (((buf.getD pos 0) &&& 127) <<< s) < 2 ^ (s + 7) := by
      apply lor_lt_two_pow
      · exact lt_of_lt_of_le hr (Nat.pow_le_pow_right (by norm_num) (by omega))
      · rw [Nat.shiftLeft_eq, Nat.pow_add, Nat.mul_comm (2 ^ s) (2 ^ 7)]
        exact Nat.mul_lt_mul_of_lt_of_le hb (le_refl _) (Nat.pos_pow_of_pos s (by norm_num))
    by_cases hterm : (buf.getD pos 0) &&& 128 = 0
    · rw [if_pos hterm] at h
      simp only [Except.ok.injEq, Prod.mk.injEq] at h
      obtain ⟨hv, hp⟩ := h
      subst hv
      subst hp
      refine ⟨by omega, by omega, by omega, ?_, by simpa using hterm⟩
      have he : s + 7 * (pos + 1 - pos) = s + 7 := by omega
      rw [he]
      exact hacc
    · rw [if_neg hterm] at h
      by_cases hsh : 64 ≤ s + 7
      · rw [if_pos hsh] at h
        simp at h
      · rw [if_neg hsh] at h
        obtain ⟨h1, h2, h3, h4, h5⟩ := ih (pos + 1) _ (s + 7) v p' h hacc (by omega)
        refine ⟨by omega, by omega, by omega, ?_, h5⟩
        have he : s + 7 + 7 * (p' - (pos + 1)) = s + 7 * (p' - pos) := by omega
        rw [he] at h4
        exact h4

/-- Failure analysis, unterminated case: the error position is always the
rewound initial position. -/
theorem readVarintAux_err_unterminated (buf : List Nat) (ip : Nat) :
    ∀ (k pos r s p : Nat),
      readVarintAux buf ip k pos r s = .error ("Unterminated varint", p) →
      p = ip := by
  intro k
  induction k with
  | zero =>
    intro pos r s p h
    simp only [readVarintAux, Except.error.injEq, Prod.mk.injEq] at h
    exact h.2.symm
  | succ k ih =>
    intro pos r s p h
    simp only [readVarintAux] at h
    by_cases hterm : (buf.getD pos 0) &&& 128 = 0
    · rw [if_pos hterm] at h
      simp at h
    · rw [if_neg hterm] at h
      by_cases hsh : 64 ≤ s + 7
      · rw [if_pos hsh] at h
        simp only [Except.error.injEq, Prod.mk.injEq] at h
        exact absurd h.1 (by decide)
      · rw [if_neg hsh] at h
        exact ih _ _ _ _ h

/-- Failure analysis, too-long case: starting from shift `s < 64`, the
error fires just past the first byte whose shift check reaches 64, and
the cursor is not rewound. -/
theorem readVarintAux_err_toolong (buf : List Nat) (ip : Nat) :
    ∀ (k pos r s p : Nat),
      readVarintAux buf ip k pos r s = .error ("Varint is too long or invalid.", p) →
      s < 64 →
      ∃ t, p = pos + t ∧ 1 ≤ t ∧ 64 ≤ s + 7 * t ∧ s + 7 * (t - 1) < 64 := by
  intro k
  induction k with
  | zero =>
    intro pos r s p h _
    simp only [readVarintAux, Except.error.injEq, Prod.mk.injEq] at h
    exact absurd h.1 (by decide)
  | succ k ih =>
    intro pos r s p h hs
    simp only [readVarintAux] at h
    by_cases hterm : (buf.getD pos 0) &&& 128 = 0
    · rw [if_pos hterm] at h
      simp at h
    · rw [if_neg hterm] at h
      by_cases hsh : 64 ≤ s + 7
      · rw [if_pos hsh] at h
        simp only [Except.error.injEq, Prod.mk.injEq] at h
        exact ⟨1, by omega, by omega, by omega, by omega⟩
      · rw [if_neg hsh] at h
        obtain ⟨t, ht1, ht2, ht3, ht4⟩ := ih _ _ _ _ h (by omega)
        exact ⟨t + 1, by omega, by omega, by omega, by omega⟩

/-- The varint loop throws only its two messages. -/
theorem readVarintAux_err_msg (buf : List Nat) (ip : Nat) :
    ∀ (k pos r s : Nat) (m : String) (p : Nat),
      readVarintAux buf ip k pos r s = .error (m, p) →
      m = "Unterminated varint" ∨ m = "Varint is too long or invalid." := by
  intro k
  induction k with
  | zero =>
    intro pos r s m p h
    simp only [readVarintAux, Except.error.injEq, Prod.mk.injEq] at h
    exact .inl h.1.symm
  | succ k ih =>
    intro pos r s m p h
    simp only [readVarintAux] at h
    by_cases hterm : (buf.getD pos 0) &&& 128 = 0
    · rw [if_pos hterm] at h
      simp at h
    · rw [if_neg hterm] at h
      by_cases hsh : 64 ≤ s + 7
      · rw [if_pos hsh] at h
        simp only [Except.error.injEq, Prod.mk.injEq] at h
        exact .inr h.1.symm
      · rw [if_neg hsh] at h
        exact ih _ _ _ _ _ h

/-- A successful `readVarint` advances the cursor by 1–10 bytes without
leaving the buffer, ends on a byte with high bit clear, and returns a
value below `2 ^ 70`. -/
theorem readVarint_ok_spec {buf : List Nat} {pos v p' : Nat}
    (h : readVarint buf pos = .ok (v, p')) :
    pos < p' ∧ p' ≤ pos + 10 ∧ p' ≤ buf.length ∧ v < 2 ^ 70 ∧
    (buf.getD (p' - 1) 0) &&& 128 = 0 := by
  unfold readVarint at h
  have hk : ¬ (buf.length - pos = 0) := by
    intro h0
    rw [h0] at h
    simp [readVarintAux] at h
  obtain ⟨h1, h2, h3, h4, h5⟩ :=
    readVarintAux_ok_spec buf pos (buf.length - pos) pos 0 0 v p' h
      (by norm_num) (by norm_num)
  refine ⟨h1, by omega, by omega, ?_, h5⟩
  calc v < 2 ^ (0 + 7 * (p' - pos)) := h4
    _ ≤ 2 ^ 70 := Nat.pow_le_pow_right (by norm_num) (by omega)

/-- Any `readVarint` failure is the unterminated case with the cursor
rewound to the start position, or the too-long case with the cursor ten
bytes past it. -/
theorem readVarint_err_spec {buf : List Nat} {pos : Nat} {m : String} {p : Nat}
    (h : readVarint buf pos = .error (m, p)) :
    (m = "Unterminated varint" ∧ p = pos) ∨
    (m = "Varint is too long or invalid." ∧ p = pos + 10) := by
  unfold readVarint at h
  rcases readVarintAux_err_msg buf pos _ _ _ _ _ _ h with hm | hm
  · subst hm
    exact .inl ⟨rfl, readVarintAux_err_unterminated buf pos _ _ _ _ _ h⟩
  · subst hm
    obtain ⟨t, ht1, ht2, ht3, ht4⟩ :=
      readVarintAux_err_toolong buf pos _ _ _ _ _ h (by norm_num)
    exact .inr ⟨rfl, by omega⟩

/-! ## Claim C4 -/

/-- Claim C4, counterexample to the claim as stated: on the ten-byte
buffer of continuation bytes `0x80`, `readVarint` started at position 0
fails (too-long varint) with the cursor reported at position 10, not
restored to the pre-read position 0.  Only the buffer-end failure path
rewinds the cursor. -/
theorem claim_C4_counterexample :
    readVarint (List.replicate 10 128) 0 =
      .error ("Varint is too long or invalid.", 10) ∧ (10 : Nat) ≠ 0 := by
  constructor
  · rfl
  · decide

/-- Claim C4 (amended): `readVarint` fails if no terminating byte (high
bit clear) appears within 10 bytes, or if the buffer ends first; on the
buffer-end failure it restores the cursor to its pre-read position, while
on the too-long failure it leaves the cursor ten bytes past the start of
the read. -/
theorem claim_C4 (buf : List Nat) (pos : Nat) :
    ((∀ i, i < 10 → pos + i < buf.length → (buf.getD (pos + i) 0) &&& 128 ≠ 0) →
      ∃ e, readVarint buf pos = .error e) ∧
    (∀ m p, readVarint buf pos = .error (m, p) →
      (m = "Unterminated varint" ∧ p = pos) ∨
      (m = "Varint is too long or invalid." ∧ p = pos + 10)) := by
  constructor
  · intro hcont
    cases hres : readVarint buf pos with
    | error e => exact ⟨e, rfl⟩
    | ok vp =>
      exfalso
      obtain ⟨v, p'⟩ := vp
      obtain ⟨h1, h2, h3, _, h5⟩ := readVarint_ok_spec hres
      have hi : p' - 1 - pos < 10 := by omega
      have hb : pos + (p' - 1 - pos) < buf.length := by omega
      have := hcont (p' - 1 - pos) hi hb
      have hidx : pos + (p' - 1 - pos) = p' - 1 := by omega
      rw [hidx] at this
      exact this h5
  · intro m p h
    exact readVarint_err_spec h

/-- Witness for claim C4: the all-continuation buffer satisfies the
failure hypothesis of the first part, and the empty buffer exercises the
error-classification part at the unterminated failure. -/
theorem claim_C4_witness :
    (∃ e, readVarint (List.replicate 10 128) 0 = .error e) ∧
    (("Unterminated varint" = "Unterminated varint" ∧ 0 = 0) ∨
     ("Unterminated varint" = "Varint is too long or invalid." ∧ 0 = 0 + 10)) := by
  constructor
  · exact (claim_C4 (List.replicate 10 128) 0).1 (by decide)
  · exact (claim_C4 ([] : List Nat) 0).2 "Unterminated varint" 0 rfl

/-! ## Claim C5 -/

/-- Claim C5, counterexample to the claim as stated: nine continuation
bytes followed by the terminator `0x02` make `readVarint` succeed with
the value `2 ^ 64`, which is not strictly less than `2 ^ 64` — the
`bigint` accumulator is not truncated to 64 bits (the 10th byte
contributes bits 63–69). -/
theorem claim_C5_counterexample :
    readVarint (List.replicate 9 128 ++ [2]) 0 = .ok (2 ^ 64, 10) ∧
    ¬ ((2 : Nat) ^ 64 < 2 ^ 64) := by
  constructor
  · rfl
  · decide

/-- Claim C5 (amended): a successful `readVarint` consumes at most 10
bytes and accumulates 7 bits per byte into an unbounded big integer, so
the returned value is strictly less than `2 ^ 70` (ten payload groups of
7 bits); values at or above `2 ^ 64` are possible. -/
theorem claim_C5 (buf : List Nat) (pos v p' : Nat)
    (h : readVarint buf pos = .ok (v, p')) :
    p' ≤ pos + 10 ∧ v < 2 ^ 70 := by
  obtain ⟨_, h2, _, h4, _⟩ := readVarint_ok_spec h
  exact ⟨h2, h4⟩

/-- Witness for claim C5 at the one-byte varint `[5]`. -/
theorem claim_C5_witness : (1 : Nat) ≤ 0 + 10 ∧ (5 : Nat) < 2 ^ 70 :=
  claim_C5 [5] 0 5 1 rfl

/-! ## Step equations of the decoding loop

`decodeFromFuel`'s body is large; the following equations isolate each
branch of one loop step so that later inductions never manipulate the
whole body at once.  In each, `fieldDefOf` abbreviates the schema lookup
performed after reading the tag. -/

/-- The field-definition lookup done once per field. -/
def fieldDefOf (schema : ParsedSchema) (msgName : Option String)
    (fieldNumber : Nat) : Option FieldDef :=
  (getMessageDef schema msgName).bind (fun md => lookupKV md.fields fieldNumber)

theorem stepEof {fuel : Nat} {schema : ParsedSchema} {msgName : Option String}
    {buffer : List Nat} {base pos : Nat} {acc : List DField}
    (h : ¬ pos < buffer.length) :
    decodeFromFuel (fuel + 1) schema msgName buffer base pos acc =
      { fields := acc } := by
  rw [decodeFromFuel, if_neg h]

theorem stepTagErr {fuel : Nat} {schema : ParsedSchema} {msgName : Option String}
    {buffer : List Nat} {base pos : Nat} {acc : List DField} {m : String} {p : Nat}
    (hpos : pos < buffer.length)
    (h : readVarint buffer pos = .error (m, p)) :
    decodeFromFuel (fuel + 1) schema msgName buffer base pos acc =
      mkErr acc m p base buffer := by
  rw [decodeFromFuel, if_pos hpos, h]

theorem stepVarintErr {fuel : Nat} {schema : ParsedSchema} {msgName : Option String}
    {buffer : List Nat} {base pos : Nat} {acc : List DField} {tag posT : Nat}
    {m : String} {p : Nat}
    (hpos : pos < buffer.length)
    (htag : readVarint buffer pos = .ok (tag, posT))
    (hwt : tag &&& 7 = 0)
    (hval : readVarint buffer posT = .error (m, p)) :
    decodeFromFuel (fuel + 1) schema msgName buffer base pos acc =
      mkErr acc m p base buffer := by
  rw [decodeFromFuel, if_pos hpos, htag]
  show (if tag &&& 7 = 0 then _ else _) = _
  rw [if_pos hwt, hval]

theorem stepVarintOk {fuel : Nat} {schema : ParsedSchema} {msgName : Option String}
    {buffer : List Nat} {base pos : Nat} {acc : List DField} {tag posT v posE : Nat}
    (hpos : pos < buffer.length)
    (htag : readVarint buffer pos = .ok (tag, posT))
    (hwt : tag &&& 7 = 0)
    (hval : readVarint buffer posT = .ok (v, posE)) :
    decodeFromFuel (fuel + 1) schema msgName buffer base pos acc =
      decodeFromFuel fuel schema msgName buffer base posE (acc ++
        [mkDF buffer base pos posE (tag >>> 3)
          (Option.map (fun fd => fd.name) (fieldDefOf schema msgName (tag >>> 3)))
          (tag &&& 7)
          (orElseStr (Option.map (fun fd => fd.type)
            (fieldDefOf schema msgName (tag >>> 3))) "varint")
          (Content.varintC v (zigzagDecode v)
            (resolveEnum schema (getMessageDef schema msgName)
              (fieldDefOf schema msgName (tag >>> 3)) v))
          none]) := by
  rw [decodeFromFuel, if_pos hpos, htag]
  show (if tag &&& 7 = 0 then _ else _) = _
  rw [if_pos hwt, hval]
  rfl

theorem stepFixed64Err {fuel : Nat} {schema : ParsedSchema} {msgName : Option String}
    {buffer : List Nat} {base pos : Nat} {acc : List DField} {tag posT : Nat}
    {m : String} {p : Nat}
    (hpos : pos < buffer.length)
    (htag : readVarint buffer pos = .ok (tag, posT))
    (hwt : tag &&& 7 = 1)
    (hval : readFixed64 buffer posT = .error (m, p)) :
    decodeFromFuel (fuel + 1) schema msgName buffer base pos acc =
      mkErr acc m p base buffer := by
  rw [decodeFromFuel, if_pos hpos, htag]
  show (if tag &&& 7 = 0 then _ else _) = _
  rw [if_neg (by rw [hwt]; decide), if_pos hwt, hval]

theorem stepFixed64Ok {fuel : Nat} {schema : ParsedSchema} {msgName : Option String}
    {buffer : List Nat} {base pos : Nat} {acc : List DField} {tag posT : Nat}
    {bs : List Nat} {posE : Nat}
    (hpos : pos < buffer.length)
    (htag : readVarint buffer pos = .ok (tag, posT))
    (hwt : tag &&& 7 = 1)
    (hval : readFixed64 buffer posT = .ok (bs, posE)) :
    decodeFromFuel (fuel + 1) schema msgName buffer base pos acc =
      decodeFromFuel fuel schema msgName buffer base posE (acc ++
        [mkDF buffer base pos posE (tag >>> 3)
          (Option.map (fun fd => fd.name) (fieldDefOf schema msgName (tag >>> 3)))
          (tag &&& 7)
          (orElseStr (Option.map (fun fd => fd.type)
            (fieldDefOf schema msgName (tag >>> 3))) "fixed64")
          (Content.fixed64C (leNat bs) (toSigned 64 (leNat bs)))
          none]) := by
  rw [decodeFromFuel, if_pos hpos, htag]
  show (if tag &&& 7 = 0 then _ else _) = _
  rw [if_neg (by rw [hwt]; decide), if_pos hwt, hval]
  rfl

theorem stepFixed32Err {fuel : Nat} {schema : ParsedSchema} {msgName : Option String}
    {buffer : List Nat} {base pos : Nat} {acc : List DField} {tag posT : Nat}
    {m : String} {p : Nat}
    (hpos : pos < buffer.length)
    (htag : readVarint buffer pos = .ok (tag, posT))
    (hwt : tag &&& 7 = 5)
    (hval : readFixed32 buffer posT = .error (m, p)) :
    decodeFromFuel (fuel + 1) schema msgName buffer base pos acc =
      mkErr acc m p base buffer := by
  rw [decodeFromFuel, if_pos hpos, htag]
  show (if tag &&& 7 = 0 then _ else _) = _
  rw [if_neg (by rw [hwt]; decide), if_neg (by rw [hwt]; decide),
    if_neg (by rw [hwt]; decide), if_pos hwt, hval]

theorem stepFixed32Ok {fuel : Nat} {schema : ParsedSchema} {msgName : Option String}
    {buffer : List Nat} {base pos : Nat} {acc : List DField} {tag posT : Nat}
    {bs : List Nat} {posE : Nat}
    (hpos : pos < buffer.length)
    (htag : readVarint buffer pos = .ok (tag, posT))
    (hwt : tag &&& 7 = 5)
    (hval : readFixed32 buffer posT = .ok (bs, posE)) :
    decodeFromFuel (fuel + 1) schema msgName buffer base pos acc =
      decodeFromFuel fuel schema msgName buffer base posE (acc ++
        [mkDF buffer base pos posE (tag >>> 3)
          (Option.map (fun fd => fd.name) (fieldDefOf schema msgName (tag >>> 3)))
          (tag &&& 7)
          (orElseStr (Option.map (fun fd => fd.type)
            (fieldDefOf schema msgName (tag >>> 3))) "fixed32")
          (Content.fixed32C (leNat bs) (toSigned 32 (leNat bs)))
          none]) := by
  rw [decodeFromFuel, if_pos hpos, htag]
  show (if tag &&& 7 = 0 then _ else _) = _
  rw [if_neg (by rw [hwt]; decide), if_neg (by rw [hwt]; decide),
    if_neg (by rw [hwt]; decide), if_pos hwt, hval]
  rfl

theorem stepUnsupported {fuel : Nat} {schema : ParsedSchema} {msgName : Option String}
    {buffer : List Nat} {base pos : Nat} {acc : List DField} {tag posT : Nat}
    (hpos : pos < buffer.length)
    (htag : readVarint buffer pos = .ok (tag, posT))
    (h0 : ¬ tag &&& 7 = 0) (h1 : ¬ tag &&& 7 = 1)
    (h2 : ¬ tag &&& 7 = 2) (h5 : ¬ tag &&& 7 = 5) :
    decodeFromFuel (fuel + 1) schema msgName buffer base pos acc =
      mkErr acc ("Unsupported wire type " ++ toString (tag &&& 7)) posT base buffer := by
  rw [decodeFromFuel, if_pos hpos, htag]
  show (if tag &&& 7 = 0 then _ else _) = _
  rw [if_neg h0, if_neg h1, if_neg h2, if_neg h5]

theorem stepLenErr {fuel : Nat} {schema : ParsedSchema} {msgName : Option String}
    {buffer : List Nat} {base pos : Nat} {acc : List DField} {tag posT : Nat}
    {m : String} {p : Nat}
    (hpos : pos < buffer.length)
    (htag : readVarint buffer pos = .ok (tag, posT))
    (hwt : tag &&& 7 = 2)
    (hlen : readVarint buffer posT = .error (m, p)) :
    decodeFromFuel (fuel + 1) schema msgName buffer base pos acc =
      mkErr acc m p base buffer := by
  rw [decodeFromFuel, if_pos hpos, htag]
  show (if tag &&& 7 = 0 then _ else _) = _
  rw [if_neg (by rw [hwt]; decide), if_neg (by rw [hwt]; decide), if_pos hwt, hlen]

theorem stepBytesErr {fuel : Nat} {schema : ParsedSchema} {msgName : Option String}
    {buffer : List Nat} {base pos : Nat} {acc : List DField} {tag posT lenN posL : Nat}
    {m : String} {p : Nat}
    (hpos : pos < buffer.length)
    (htag : readVarint buffer pos = .ok (tag, posT))
    (hwt : tag &&& 7 = 2)
    (hlen : readVarint buffer posT = .ok (lenN, posL))
    (hbytes : readBytes buffer posL lenN = .error (m, p)) :
    decodeFromFuel (fuel + 1) schema msgName buffer base pos acc =
      mkErr acc m p base buffer := by
  rw [decodeFromFuel, if_pos hpos, htag]
  show (if tag &&& 7 = 0 then _ else _) = _
  rw [if_neg (by rw [hwt]; decide), if_neg (by rw [hwt]; decide), if_pos hwt]
  simp only [hlen, hbytes]

theorem stepPackedErr {fuel : Nat} {schema : ParsedSchema} {msgName : Option String}
    {buffer : List Nat} {base pos : Nat} {acc : List DField} {tag posT lenN posL : Nat}
    {bytes : List Nat} {posE : Nat} {fd : FieldDef} {m : String} {p : Nat}
    (hpos : pos < buffer.length)
    (htag : readVarint buffer pos = .ok (tag, posT))
    (hwt : tag &&& 7 = 2)
    (hlen : readVarint buffer posT = .ok (lenN, posL))
    (hbytes : readBytes buffer posL lenN = .ok (bytes, posE))
    (hfd : fieldDefOf schema msgName (tag >>> 3) = some fd)
    (hguard : fd.isRepeated = true ∧ packablePrimitiveTypes.contains fd.type = true)
    (hpk : decodePacked fd.type bytes = .error (m, p)) :
    decodeFromFuel (fuel + 1) schema msgName buffer base pos acc =
      mkErr acc m posE base buffer := by
  rw [decodeFromFuel, if_pos hpos, htag]
  show (if tag &&& 7 = 0 then _ else _) = _
  rw [if_neg (by rw [hwt]; decide), if_neg (by rw [hwt]; decide), if_pos hwt]
  simp only [hlen, hbytes]
  simp only [show (getMessageDef schema msgName).bind
      (fun md => lookupKV md.fields (tag >>> 3)) = some fd from hfd]
  simp only [if_pos hguard, hpk]

theorem stepPackedOk {fuel : Nat} {schema : ParsedSchema} {msgName : Option String}
    {buffer : List Nat} {base pos : Nat} {acc : List DField} {tag posT lenN posL : Nat}
    {bytes : List Nat} {posE : Nat} {fd : FieldDef} {vals : List PackedVal}
    (hpos : pos < buffer.length)
    (htag : readVarint buffer pos = .ok (tag, posT))
    (hwt : tag &&& 7 = 2)
    (hlen : readVarint buffer posT = .ok (lenN, posL))
    (hbytes : readBytes buffer posL lenN = .ok (bytes, posE))
    (hfd : fieldDefOf schema msgName (tag >>> 3) = some fd)
    (hguard : fd.isRepeated = true ∧ packablePrimitiveTypes.contains fd.type = true)
    (hpk : decodePacked fd.type bytes = .ok vals) :
    decodeFromFuel (fuel + 1) schema msgName buffer base pos acc =
      decodeFromFuel fuel schema msgName buffer base posE (acc ++
        [mkDF buffer base pos posE (tag >>> 3) (some fd.name) (tag &&& 7)
          ("repeated " ++ fd.type) (Content.packed vals) (some (posL + base))]) := by
  rw [decodeFromFuel, if_pos hpos, htag]
  show (if tag &&& 7 = 0 then _ else _) = _
  rw [if_neg (by rw [hwt]; decide), if_neg (by rw [hwt]; decide), if_pos hwt]
  simp only [hlen, hbytes]
  simp only [show (getMessageDef schema msgName).bind
      (fun md => lookupKV md.fields (tag >>> 3)) = some fd from hfd]
  simp only [if_pos hguard, hpk]
  rfl

theorem stepMsgSubErr {fuel : Nat} {schema : ParsedSchema} {msgName : Option String}
    {buffer : List Nat} {base pos : Nat} {acc : List DField} {tag posT lenN posL : Nat}
    {bytes : List Nat} {posE : Nat} {fd : FieldDef}
    (hpos : pos < buffer.length)
    (htag : readVarint buffer pos = .ok (tag, posT))
    (hwt : tag &&& 7 = 2)
    (hlen : readVarint buffer posT = .ok (lenN, posL))
    (hbytes : readBytes buffer posL lenN = .ok (bytes, posE))
    (hfd : fieldDefOf schema msgName (tag >>> 3) = some fd)
    (hguard : ¬ (fd.isRepeated = true ∧ packablePrimitiveTypes.contains fd.type = true))
    (hmsg : (lookupKV schema.messages fd.type).isSome = true)
    (hsub : (decodeFromFuel fuel schema (some fd.type) bytes (posL + base) 0 []).error.isSome
      = true) :
    decodeFromFuel (fuel + 1) schema msgName buffer base pos acc =
      mkErr acc ("Failed to decode sub-message of type " ++ fd.type) posE base buffer := by
  rw [decodeFromFuel, if_pos hpos, htag]
  show (if tag &&& 7 = 0 then _ else _) = _
  rw [if_neg (by rw [hwt]; decide), if_neg (by rw [hwt]; decide), if_pos hwt]
  simp only [hlen, hbytes]
  simp only [show (getMessageDef schema msgName).bind
      (fun md => lookupKV md.fields (tag >>> 3)) = some fd from hfd]
  rw [if_neg hguard, if_pos hmsg]
  simp only [hsub, if_pos]

theorem stepMsgSubOk {fuel : Nat} {schema : ParsedSchema} {msgName : Option String}
    {buffer : List Nat} {base pos : Nat} {acc : List DField} {tag posT lenN posL : Nat}
    {bytes : List Nat} {posE : Nat} {fd : FieldDef}
    (hpos : pos < buffer.length)
    (htag : readVarint buffer pos = .ok (tag, posT))
    (hwt : tag &&& 7 = 2)
    (hlen : readVarint buffer posT = .ok (lenN, posL))
    (hbytes : readBytes buffer posL lenN = .ok (bytes, posE))
    (hfd : fieldDefOf schema msgName (tag >>> 3) = some fd)
    (hguard : ¬ (fd.isRepeated = true ∧ packablePrimitiveTypes.contains fd.type = true))
    (hmsg : (lookupKV schema.messages fd.type).isSome = true)
    (hsub : (decodeFromFuel fuel schema (some fd.type) bytes (posL + base) 0 []).error.isSome
      = false) :
    decodeFromFuel (fuel + 1) schema msgName buffer base pos acc =
      decodeFromFuel fuel schema msgName buffer base posE (acc ++
        [mkDF buffer base pos posE (tag >>> 3) (some fd.name) (tag &&& 7)
          fd.type
          (Content.msg (decodeFromFuel fuel schema (some fd.type) bytes (posL + base) 0 []).fields)
          (some (posL + base))]) := by
  rw [decodeFromFuel, if_pos hpos, htag]
  show (if tag &&& 7 = 0 then _ else _) = _
  rw [if_neg (by rw [hwt]; decide), if_neg (by rw [hwt]; decide), if_pos hwt]
  simp only [hlen, hbytes]
  simp only [show (getMessageDef schema msgName).bind
      (fun md => lookupKV md.fields (tag >>> 3)) = some fd from hfd]
  rw [if_neg hguard, if_pos hmsg]
  simp only [hsub, Bool.false_eq_true, if_false]
  rfl

theorem stepStringOk {fuel : Nat} {schema : ParsedSchema} {msgName : Option String}
    {buffer : List Nat} {base pos : Nat} {acc : List DField} {tag posT lenN posL : Nat}
    {bytes : List Nat} {posE : Nat} {fd : FieldDef} {s : String}
    (hpos : pos < buffer.length)
    (htag : readVarint buffer pos = .ok (tag, posT))
    (hwt : tag &&& 7 = 2)
    (hlen : readVarint buffer posT = .ok (lenN, posL))
    (hbytes : readBytes buffer posL lenN = .ok (bytes, posE))
    (hfd : fieldDefOf schema msgName (tag >>> 3) = some fd)
    (hguard : ¬ (fd.isRepeated = true ∧ packablePrimitiveTypes.contains fd.type = true))
    (hmsg : (lookupKV schema.messages fd.type).isSome = false)
    (hstr : fd.type = "string")
    (hutf : utf8Decode bytes = some s) :
    decodeFromFuel (fuel + 1) schema msgName buffer base pos acc =
      decodeFromFuel fuel schema msgName buffer base posE (acc ++
        [mkDF buffer base pos posE (tag >>> 3) (some fd.name) (tag &&& 7)
          "string" (Content.str s) (some (posL + base))]) := by
  rw [decodeFromFuel, if_pos hpos, htag]
  show (if tag &&& 7 = 0 then _ else _) = _
  rw [if_neg (by rw [hwt]; decide), if_neg (by rw [hwt]; decide), if_pos hwt]
  simp only [hlen, hbytes]
  simp only [show (getMessageDef schema msgName).bind
      (fun md => lookupKV md.fields (tag >>> 3)) = some fd from hfd]
  rw [if_neg hguard]
  simp only [hmsg, Bool.false_eq_true, if_false]
  rw [if_pos hstr]
  simp only [hutf]
  rfl

theorem stepStringErr {fuel : Nat} {schema : ParsedSchema} {msgName : Option String}
    {buffer : List Nat} {base pos : Nat} {acc : List DField} {tag posT lenN posL : Nat}
    {bytes : List Nat} {posE : Nat} {fd : FieldDef}
    (hpos : pos < buffer.length)
    (htag : readVarint buffer pos = .ok (tag, posT))
    (hwt : tag &&& 7 = 2)
    (hlen : readVarint buffer posT = .ok (lenN, posL))
    (hbytes : readBytes buffer posL lenN = .ok (bytes, posE))
    (hfd : fieldDefOf schema msgName (tag >>> 3) = some fd)
    (hguard : ¬ (fd.isRepeated = true ∧ packablePrimitiveTypes.contains fd.type = true))
    (hmsg : (lookupKV schema.messages fd.type).isSome = false)
    (hstr : fd.type = "string")
    (hutf : utf8Decode bytes = none) :
    decodeFromFuel (fuel + 1) schema msgName buffer base pos acc =
      mkErr acc utf8ErrorMessage posE base buffer := by
  rw [decodeFromFuel, if_pos hpos, htag]
  show (if tag &&& 7 = 0 then _ else _) = _
  rw [if_neg (by rw [hwt]; decide), if_neg (by rw [hwt]; decide), if_pos hwt]
  simp only [hlen, hbytes]
  simp only [show (getMessageDef schema msgName).bind
      (fun md => lookupKV md.fields (tag >>> 3)) = some fd from hfd]
  rw [if_neg hguard]
  simp only [hmsg, Bool.false_eq_true, if_false]
  rw [if_pos hstr]
  simp only [hutf]

theorem stepBytesTypeOk {fuel : Nat} {schema : ParsedSchema} {msgName : Option String}
    {buffer : List Nat} {base pos : Nat} {acc : List DField} {tag posT lenN posL : Nat}
    {bytes : List Nat} {posE : Nat} {fd : FieldDef}
    (hpos : pos < buffer.length)
    (htag : readVarint buffer pos = .ok (tag, posT))
    (hwt : tag &&& 7 = 2)
    (hlen : readVarint buffer posT = .ok (lenN, posL))
    (hbytes : readBytes buffer posL lenN = .ok (bytes, posE))
    (hfd : fieldDefOf schema msgName (tag >>> 3) = some fd)
    (hguard : ¬ (fd.isRepeated = true ∧ packablePrimitiveTypes.contains fd.type = true))
    (hmsg : (lookupKV schema.messages fd.type).isSome = false)
    (hstr : ¬ fd.type = "string")
    (hbt : fd.type = "bytes") :
    decodeFromFuel (fuel + 1) schema msgName buffer base pos acc =
      decodeFromFuel fuel schema msgName buffer base posE (acc ++
        [mkDF buffer base pos posE (tag >>> 3) (some fd.name) (tag &&& 7)
          "bytes" (Content.str (bytesToHex bytes)) (some (posL + base))]) := by
  rw [decodeFromFuel, if_pos hpos, htag]
  show (if tag &&& 7 = 0 then _ else _) = _
  rw [if_neg (by rw [hwt]; decide), if_neg (by rw [hwt]; decide), if_pos hwt]
  simp only [hlen, hbytes]
  simp only [show (getMessageDef schema msgName).bind
      (fun md => lookupKV md.fields (tag >>> 3)) = some fd from hfd]
  rw [if_neg hguard]
  simp only [hmsg, Bool.false_eq_true, if_false]
  rw [if_neg hstr, if_pos hbt]
  rfl

theorem stepGuessFd {fuel : Nat} {schema : ParsedSchema} {msgName : Option String}
    {buffer : List Nat} {base pos : Nat} {acc : List DField} {tag posT lenN posL : Nat}
    {bytes : List Nat} {posE : Nat} {fd : FieldDef}
    (hpos : pos < buffer.length)
    (htag : readVarint buffer pos = .ok (tag, posT))
    (hwt : tag &&& 7 = 2)
    (hlen : readVarint buffer posT = .ok (lenN, posL))
    (hbytes : readBytes buffer posL lenN = .ok (bytes, posE))
    (hfd : fieldDefOf schema msgName (tag >>> 3) = some fd)
    (hguard : ¬ (fd.isRepeated = true ∧ packablePrimitiveTypes.contains fd.type = true))
    (hmsg : (lookupKV schema.messages fd.type).isSome = false)
    (hstr : ¬ fd.type = "string")
    (hbt : ¬ fd.type = "bytes") :
    decodeFromFuel (fuel + 1) schema msgName buffer base pos acc =
      decodeFromFuel fuel schema msgName buffer base posE (acc ++
        [mkDF buffer base pos posE (tag >>> 3) (some fd.name) (tag &&& 7)
          (guessContent (decodeFromFuel fuel schema none bytes (posL + base) 0 []) bytes).2
          (guessContent (decodeFromFuel fuel schema none bytes (posL + base) 0 []) bytes).1
          (some (posL + base))]) := by
  rw [decodeFromFuel, if_pos hpos, htag]
  show (if tag &&& 7 = 0 then _ else _) = _
  rw [if_neg (by rw [hwt]; decide), if_neg (by rw [hwt]; decide), if_pos hwt]
  simp only [hlen, hbytes]
  simp only [show (getMessageDef schema msgName).bind
      (fun md => lookupKV md.fields (tag >>> 3)) = some fd from hfd]
  rw [if_neg hguard]
  simp only [hmsg, Bool.false_eq_true, if_false]
  rw [if_neg hstr, if_neg hbt]
  rfl

theorem stepGuessNone {fuel : Nat} {schema : ParsedSchema} {msgName : Option String}
    {buffer : List Nat} {base pos : Nat} {acc : List DField} {tag posT lenN posL : Nat}
    {bytes : List Nat} {posE : Nat}
    (hpos : pos < buffer.length)
    (htag : readVarint buffer pos = .ok (tag, posT))
    (hwt : tag &&& 7 = 2)
    (hlen : readVarint buffer posT = .ok (lenN, posL))
    (hbytes : readBytes buffer posL lenN = .ok (bytes, posE))
    (hfd : fieldDefOf schema msgName (tag >>> 3) = none) :
    decodeFromFuel (fuel + 1) schema msgName buffer base pos acc =
      decodeFromFuel fuel schema msgName buffer base posE (acc ++
        [mkDF buffer base pos posE (tag >>> 3) none (tag &&& 7)
          (guessContent (decodeFromFuel fuel schema none bytes (posL + base) 0 []) bytes).2
          (guessContent (decodeFromFuel fuel schema none bytes (posL + base) 0 []) bytes).1
          (some (posL + base))]) := by
  rw [decodeFromFuel, if_pos hpos, htag]
  show (if tag &&& 7 = 0 then _ else _) = _
  rw [if_neg (by rw [hwt]; decide), if_neg (by rw [hwt]; decide), if_pos hwt]
  simp only [hlen, hbytes]
  simp only [show (getMessageDef schema msgName).bind
      (fun md => lookupKV md.fields (tag >>> 3)) = none from hfd]
  rfl

theorem readFixed32_ok_spec {buf : List Nat} {pos : Nat} {bs : List Nat} {p' : Nat}
    (h : readFixed32 buf pos = .ok (bs, p')) :
    p' = pos + 4 ∧ p' ≤ buf.length ∧ bs = (buf.drop pos).take 4 := by
  unfold readFixed32 at h
  by_cases hle : pos + 4 ≤ buf.length
  · rw [if_pos hle] at h
    simp only [Except.ok.injEq, Prod.mk.injEq] at h
    exact ⟨h.2.symm, by omega, h.1.symm⟩
  · rw [if_neg hle] at h
    simp at h

theorem readFixed64_ok_spec {buf : List Nat} {pos : Nat} {bs : List Nat} {p' : Nat}
    (h : readFixed64 buf pos = .ok (bs, p')) :
    p' = pos + 8 ∧ p' ≤ buf.length ∧ bs = (buf.drop pos).take 8 := by
  unfold readFixed64 at h
  by_cases hle : pos + 8 ≤ buf.length
  · rw [if_pos hle] at h
    simp only [Except.ok.injEq, Prod.mk.injEq] at h
    exact ⟨h.2.symm, by omega, h.1.symm⟩
  · rw [if_neg hle] at h
    simp at h

theorem readBytes_ok_spec {buf : List Nat} {pos len : Nat} {bs : List Nat} {p' : Nat}
    (h : readBytes buf pos len = .ok (bs, p')) :
    p' = pos + len ∧ p' ≤ buf.length ∧ bs = (buf.drop pos).take len := by
  unfold readBytes at h
  by_cases hle : pos + len ≤ buf.length
  · rw [if_pos hle] at h
    simp only [Except.ok.injEq, Prod.mk.injEq] at h
    exact ⟨h.2.symm, by omega, h.1.symm⟩
  · rw [if_neg hle] at h
    simp at h

/-- The heuristic cascade yields an embedded-message content only from
the nested decode attempt's own field list. -/
theorem guessContent_msg {sub : DecodeResult} {bytes : List Nat} {l : List DField}
    (h : (guessContent sub bytes).1 = .msg l) : l = sub.fields := by
  unfold guessContent at h
  by_cases hc : sub.error.isNone = true ∧ ¬(0 < bytes.length ∧ sub.fields.length = 0)
  · rw [if_pos hc] at h
    simpa using h.symm
  · rw [if_neg hc] at h
    cases hu : utf8Decode bytes with
    | some s => rw [hu] at h; simp at h
    | none => rw [hu] at h; simp at h

/-! ## One-step case analysis of the decoding loop

Every step of the loop either stops at end-of-buffer, stops with a
`catch` result carrying the fields accumulated so far, or decodes one
field spanning `[pos, posE)` and continues from `posE`; an
embedded-message content always comes from a recursive decode of the
payload slice re-anchored at its absolute start offset. -/

theorem decodeFromFuel_step (fuel : Nat) (schema : ParsedSchema)
    (msgName : Option String) (buffer : List Nat) (base pos : Nat)
    (acc : List DField) :
    (¬ pos < buffer.length ∧
      decodeFromFuel (fuel + 1) schema msgName buffer base pos acc =
        { fields := acc }) ∨
    (∃ m p, decodeFromFuel (fuel + 1) schema msgName buffer base pos acc =
      mkErr acc m p base buffer) ∨
    (∃ posE fieldNumber fname wt typeName content payload,
      pos < posE ∧ posE ≤ buffer.length ∧
      decodeFromFuel (fuel + 1) schema msgName buffer base pos acc =
        decodeFromFuel fuel schema msgName buffer base posE
          (acc ++ [mkDF buffer base pos posE fieldNumber fname wt typeName
            content payload]) ∧
      (∀ l, content = .msg l →
        ∃ mn posL, pos < posL ∧ posL ≤ posE ∧ payload = some (posL + base) ∧
          l = (decodeFromFuel fuel schema mn
            ((buffer.drop posL).take (posE - posL)) (posL + base) 0 []).fields)) := by
  by_cases hpos : pos < buffer.length
  case neg => exact .inl ⟨hpos, stepEof hpos⟩
  case pos =>
  cases hres : readVarint buffer pos with
  | error e =>
    obtain ⟨m, p⟩ := e
    exact .inr (.inl ⟨m, p, stepTagErr hpos hres⟩)
  | ok tp =>
  obtain ⟨tag, posT⟩ := tp
  obtain ⟨htb1, _, htb3, _, _⟩ := readVarint_ok_spec hres
  by_cases h0 : tag &&& 7 = 0
  · cases hval : readVarint buffer posT with
    | error e =>
      obtain ⟨m, p⟩ := e
      exact .inr (.inl ⟨m, p, stepVarintErr hpos hres h0 hval⟩)
    | ok vp =>
      obtain ⟨v, posE⟩ := vp
      obtain ⟨hv1, _, hv3, _, _⟩ := readVarint_ok_spec hval
      refine .inr (.inr ⟨posE, _, _, _, _, _, _, by omega, hv3,
        stepVarintOk hpos hres h0 hval, ?_⟩)
      intro l hl
      cases hl
  · by_cases h1 : tag &&& 7 = 1
    · cases hval : readFixed64 buffer posT with
      | error e =>
        obtain ⟨m, p⟩ := e
        exact .inr (.inl ⟨m, p, stepFixed64Err hpos hres h1 hval⟩)
      | ok vp =>
        obtain ⟨bs, posE⟩ := vp
        obtain ⟨hv1, hv2, _⟩ := readFixed64_ok_spec hval
        refine .inr (.inr ⟨posE, _, _, _, _, _, _, by omega, hv2,
          stepFixed64Ok hpos hres h1 hval, ?_⟩)
        intro l hl
        cases hl
    · by_cases h2 : tag &&& 7 = 2
      · cases hlen : readVarint buffer posT with
        | error e =>
          obtain ⟨m, p⟩ := e
          exact .inr (.inl ⟨m, p, stepLenErr hpos hres h2 hlen⟩)
        | ok lp =>
        obtain ⟨lenN, posL⟩ := lp
        obtain ⟨hl1, _, hl3, _, _⟩ := readVarint_ok_spec hlen
        cases hbytes : readBytes buffer posL lenN with
        | error e =>
          obtain ⟨m, p⟩ := e
          exact .inr (.inl ⟨m, p, stepBytesErr hpos hres h2 hlen hbytes⟩)
        | ok bp =>
        obtain ⟨bytes, posE⟩ := bp
        obtain ⟨hb1, hb2, hb3⟩ := readBytes_ok_spec hbytes
        have hbytes' : bytes = (buffer.drop posL).take (posE - posL) := by
          rw [hb3, hb1]
          congr 1
          omega
        cases hfd : fieldDefOf schema msgName (tag >>> 3) with
        | some fd =>
          by_cases hguard : fd.isRepeated = true ∧
              packablePrimitiveTypes.contains fd.type = true
          · cases hpk : decodePacked fd.type bytes with
            | error e =>
              obtain ⟨m, p⟩ := e
              exact .inr (.inl ⟨m, posE,
                stepPackedErr hpos hres h2 hlen hbytes hfd hguard hpk⟩)
            | ok vals =>
              refine .inr (.inr ⟨posE, _, _, _, _, _, _, by omega, hb2,
                stepPackedOk hpos hres h2 hlen hbytes hfd hguard hpk, ?_⟩)
              intro l hl
              cases hl
          · by_cases hmsg : (lookupKV schema.messages fd.type).isSome = true
            · cases hsub : (decodeFromFuel fuel schema (some fd.type) bytes
                  (posL + base) 0 []).error.isSome with
              | true =>
                exact .inr (.inl ⟨_, posE,
                  stepMsgSubErr hpos hres h2 hlen hbytes hfd hguard hmsg hsub⟩)
              | false =>
                refine .inr (.inr ⟨posE, _, _, _, _, _, _, by omega, hb2,
                  stepMsgSubOk hpos hres h2 hlen hbytes hfd hguard hmsg hsub, ?_⟩)
                intro l hl
                refine ⟨some fd.type, posL, by omega, by omega, rfl, ?_⟩
                cases hl
                rw [← hbytes']
            · have hmsg' : (lookupKV schema.messages fd.type).isSome = false := by
                simpa using hmsg
              by_cases hstr : fd.type = "string"
              · cases hutf : utf8Decode bytes with
                | none =>
                  exact .inr (.inl ⟨_, posE,
                    stepStringErr hpos hres h2 hlen hbytes hfd hguard hmsg' hstr hutf⟩)
                | some s =>
                  refine .inr (.inr ⟨posE, _, _, _, _, _, _, by omega, hb2,
                    stepStringOk hpos hres h2 hlen hbytes hfd hguard hmsg' hstr hutf, ?_⟩)
                  intro l hl
                  cases hl
              · by_cases hbt : fd.type = "bytes"
                · refine .inr (.inr ⟨posE, _, _, _, _, _, _, by omega, hb2,
                    stepBytesTypeOk hpos hres h2 hlen hbytes hfd hguard hmsg' hstr hbt, ?_⟩)
                  intro l hl
                  cases hl
                · refine .inr (.inr ⟨posE, _, _, _, _, _, _, by omega, hb2,
                    stepGuessFd hpos hres h2 hlen hbytes hfd hguard hmsg' hstr hbt, ?_⟩)
                  intro l hl
                  refine ⟨none, posL, by omega, by omega, rfl, ?_⟩
                  rw [guessContent_msg hl, ← hbytes']
        | none =>
          refine .inr (.inr ⟨posE, _, _, _, _, _, _, by omega, hb2,
            stepGuessNone hpos hres h2 hlen hbytes hfd, ?_⟩)
          intro l hl
          refine ⟨none, posL, by omega, by omega, rfl, ?_⟩
          rw [guessContent_msg hl, ← hbytes']
      · by_cases h5 : tag &&& 7 = 5
        · cases hval : readFixed32 buffer posT with
          | error e =>
            obtain ⟨m, p⟩ := e
            exact .inr (.inl ⟨m, p, stepFixed32Err hpos hres h5 hval⟩)
          | ok vp =>
            obtain ⟨bs, posE⟩ := vp
            obtain ⟨hv1, hv2, _⟩ := readFixed32_ok_spec hval
            refine .inr (.inr ⟨posE, _, _, _, _, _, _, by omega, hv2,
              stepFixed32Ok hpos hres h5 hval, ?_⟩)
            intro l hl
            cases hl
        · exact .inr (.inl ⟨_, posT, stepUnsupported hpos hres h0 h1 h2 h5⟩)

/-! ## Shape of every decode result (for claim C1) -/

/-- Every result of the decoding loop either carries no error or is
exactly a `catch`-block result (`mkErr`) for the current buffer and
base offset. -/
theorem decodeFromFuel_shape :
    ∀ (fuel : Nat) (schema : ParsedSchema) (msgName : Option String)
      (buffer : List Nat) (base pos : Nat) (acc : List DField),
      (decodeFromFuel fuel schema msgName buffer base pos acc).error = none ∨
      ∃ fs cause p, decodeFromFuel fuel schema msgName buffer base pos acc =
        mkErr fs cause p base buffer := by
  intro fuel
  induction fuel with
  | zero =>
    intro schema msgName buffer base pos acc
    exact .inr ⟨acc, "Out of fuel", pos, rfl⟩
  | succ fuel ih =>
    intro schema msgName buffer base pos acc
    rcases decodeFromFuel_step fuel schema msgName buffer base pos acc with
      ⟨_, heq⟩ | ⟨m, p, heq⟩ | ⟨posE, fn, fname, wt, tn, c, pl, _, _, heq, _⟩
    · rw [heq]
      exact .inl rfl
    · rw [heq]
      exact .inr ⟨acc, m, p, rfl⟩
    · rw [heq]
      exact ih _ _ _ _ _ _

/-! ## Contiguity of sibling byte ranges (for claim C6) -/

mutual

/-- A sibling list is chained from anchor `s`: each field starts exactly
at the anchor, spans a non-empty inclusive range, is internally chained,
and the next sibling starts one byte after it ends. -/
def chainFromT : Nat → List DField → Prop
  | _, [] => True
  | s, f :: fs =>
    f.byteRange.1 = s ∧ fieldChained f ∧ chainFromT (f.byteRange.2 + 1) fs

/-- One field: `start ≤ end`, and an embedded-message content is chained
from the field's absolute payload start offset. -/
def fieldChained : DField → Prop
  | .mk br _ _ _ _ c _ ps => br.1 ≤ br.2 ∧ contentChainOk c (ps.getD 0)

/-- Only embedded-message content constrains chaining. -/
def contentChainOk : Content → Nat → Prop
  | .msg fs, anchor => chainFromT anchor fs
  | _, _ => True

end

/-- The fields added by the decoding loop extend the accumulator and are
chained from the absolute offset of the current cursor; nested
embedded-message contents are chained from their payload offsets. -/
theorem decodeFromFuel_chain :
    ∀ (fuel : Nat) (schema : ParsedSchema) (msgName : Option String)
      (buffer : List Nat) (base pos : Nat) (acc : List DField),
      ∃ nw, (decodeFromFuel fuel schema msgName buffer base pos acc).fields =
        acc ++ nw ∧ chainFromT (pos + base) nw := by
  intro fuel
  induction fuel with
  | zero =>
    intro schema msgName buffer base pos acc
    exact ⟨[], by simp [decodeFromFuel, mkErr], trivial⟩
  | succ fuel ih =>
    intro schema msgName buffer base pos acc
    rcases decodeFromFuel_step fuel schema msgName buffer base pos acc with
      ⟨_, heq⟩ | ⟨m, p, heq⟩ | ⟨posE, fn, fname, wt, tn, c, pl, hlt, hle, heq, hmsg⟩
    · rw [heq]
      exact ⟨[], by simp, trivial⟩
    · rw [heq]
      exact ⟨[], by simp [mkErr], trivial⟩
    · rw [heq]
      obtain ⟨nw, hfe, hch⟩ := ih schema msgName buffer base posE
        (acc ++ [mkDF buffer base pos posE fn fname wt tn c pl])
      refine ⟨mkDF buffer base pos posE fn fname wt tn c pl :: nw, ?_, ?_, ?_, ?_⟩
      · rw [hfe]
        simp
      · rfl
      · -- fieldChained
        show pos + base ≤ posE - 1 + base ∧ contentChainOk c (pl.getD 0)
        refine ⟨by omega, ?_⟩
        cases c with
        | msg l =>
          obtain ⟨mn, posL, hp1, hp2, hpl, hl⟩ := hmsg l rfl
          show chainFromT (pl.getD 0) l
          rw [hpl, hl]
          obtain ⟨nw', hfe', hch'⟩ := ih schema mn
            ((buffer.drop posL).take (posE - posL)) (posL + base) 0 []
          rw [hfe']
          simpa using hch'
        | str s => trivial
        | packed vs => trivial
        | varintC a b c => trivial
        | fixed32C a b => trivial
        | fixed64C a b => trivial
      · show chainFromT (posE - 1 + base + 1) nw
        have he : posE - 1 + base + 1 = posE + base := by omega
        rw [he]
        exact hch

/-- Non-empty input always produces at least one field or an error: the
schema-mismatch retry condition of `decodeProtobuf` (zero fields, no
error, non-empty buffer) is unreachable. -/
theorem decodeFromFuel_progress (fuel : Nat) (schema : ParsedSchema)
    (msgName : Option String) (buffer : List Nat) (base pos : Nat)
    (acc : List DField) (hpos : pos < buffer.length) :
    (decodeFromFuel (fuel + 1) schema msgName buffer base pos acc).error ≠ none ∨
    acc.length <
      (decodeFromFuel (fuel + 1) schema msgName buffer base pos acc).fields.length := by
  rcases decodeFromFuel_step fuel schema msgName buffer base pos acc with
    ⟨hne, _⟩ | ⟨m, p, heq⟩ | ⟨posE, fn, fname, wt, tn, c, pl, _, _, heq, _⟩
  · exact absurd hpos hne
  · rw [heq]
    exact .inl (by simp [mkErr])
  · rw [heq]
    obtain ⟨nw, hfe, _⟩ := decodeFromFuel_chain fuel schema msgName buffer base posE
      (acc ++ [mkDF buffer base pos posE fn fname wt tn c pl])
    rw [hfe]
    right
    simp

/-! ## Claim C1 -/

/-- Claim C1: on any per-field decoding failure, `decode` stops and
returns the fields decoded so far, an error message embedding the
human-readable cause and the absolute byte offset of the failure, that
offset as `errorBytePos`, and the hex rendering of all undecoded bytes
(those from the reader's failure position on); on the single byte `0x08`
it fails with the unterminated-varint error at byte offset 1, zero
decoded fields, and an empty unparsed remainder. -/
theorem claim_C1 :
    (∀ (buffer : List Nat) (schema : ParsedSchema) (msgName : Option String)
        (base : Nat) (e : String),
      (decode buffer schema msgName base).error = some e →
      ∃ cause p, e = cause ++ " at byte " ++ toString (p + base) ++ "." ∧
        (decode buffer schema msgName base).errorBytePos = some (p + base) ∧
        (decode buffer schema msgName base).unparsedHex =
          some (bytesToHex (buffer.drop p))) ∧
    decode [8] emptySchema none 0 =
      { fields := []
      , error := some "Unterminated varint at byte 1."
      , unparsedHex := some ""
      , errorBytePos := some 1 } := by
  constructor
  · intro buffer schema msgName base e he
    unfold decode at he ⊢
    rcases decodeFromFuel_shape (buffer.length + 1) schema msgName buffer base 0 []
      with hnone | ⟨fs, cause, p, heq⟩
    · rw [hnone] at he
      cases he
    · rw [heq] at he ⊢
      simp only [mkErr, Option.some.injEq] at he
      exact ⟨cause, p, he.symm, rfl, rfl⟩
  · rfl

/-- Witness for claim C1 at the single byte `0x08`. -/
theorem claim_C1_witness :
    ∃ cause p, "Unterminated varint at byte 1." =
        cause ++ " at byte " ++ toString (p + 0) ++ "." ∧
      (decode [8] emptySchema none 0).errorBytePos = some (p + 0) ∧
      (decode [8] emptySchema none 0).unparsedHex =
        some (bytesToHex (([8] : List Nat).drop p)) :=
  claim_C1.1 [8] emptySchema none 0 "Unterminated varint at byte 1." rfl

/-! ## Claim C6 -/

/-- Claim C6: in every decode result (nested embedded messages
included), each field's byte range satisfies `start ≤ end`, sibling
ranges are contiguous and non-overlapping in encounter order (each
starts exactly one byte after the previous sibling ends), and the first
sibling starts at the call's base offset. -/
theorem claim_C6 (buffer : List Nat) (schema : ParsedSchema)
    (msgName : Option String) (base : Nat) :
    chainFromT base (decode buffer schema msgName base).fields := by
  obtain ⟨nw, hfe, hch⟩ :=
    decodeFromFuel_chain (buffer.length + 1) schema msgName buffer base 0 []
  unfold decode
  rw [hfe]
  simpa using hch

/-! ## Raw bytes are exact slices of the top-level buffer (claim C7) -/

mutual

/-- One field's `rawBytes` is the exact slice of the top-level buffer
spanned by its inclusive `byteRange`, recursively so for embedded
messages. -/
def fieldRawOk (top : List Nat) : DField → Prop
  | .mk br _ _ _ _ c rb _ =>
    rb = (top.drop br.1).take (br.2 + 1 - br.1) ∧ contentRawOk top c

/-- Only embedded-message content carries nested fields. -/
def contentRawOk (top : List Nat) : Content → Prop
  | .msg fs => allRawOk top fs
  | _ => True

/-- All fields of a sibling list. -/
def allRawOk (top : List Nat) : List DField → Prop
  | [] => True
  | f :: fs => fieldRawOk top f ∧ allRawOk top fs

end

/-- Shifting a slice relation by `q` positions. -/
theorem slice_shift {top buffer rest : List Nat} {base q : Nat}
    (hsl : top.drop base = buffer ++ rest) (hq : q ≤ buffer.length) :
    top.drop (q + base) = buffer.drop q ++ rest := by
  have h1 : top.drop (q + base) = (top.drop base).drop q := by
    rw [List.drop_drop]
    congr 1
    omega
  rw [h1, hsl, List.drop_append_of_le_length hq]

/-- When the local buffer is the slice of the top-level buffer starting
at the base offset, every field produced by the decoding loop has
`rawBytes` equal to the top-level slice spanned by its byte range,
recursively through embedded messages. -/
theorem decodeFromFuel_rawOk :
    ∀ (fuel : Nat) (schema : ParsedSchema) (msgName : Option String)
      (buffer : List Nat) (base pos : Nat) (acc : List DField)
      (top rest : List Nat),
      top.drop base = buffer ++ rest →
      ∃ nw, (decodeFromFuel fuel schema msgName buffer base pos acc).fields =
        acc ++ nw ∧ allRawOk top nw := by
  intro fuel
  induction fuel with
  | zero =>
    intro schema msgName buffer base pos acc top rest hsl
    exact ⟨[], by simp [decodeFromFuel, mkErr], trivial⟩
  | succ fuel ih =>
    intro schema msgName buffer base pos acc top rest hsl
    rcases decodeFromFuel_step fuel schema msgName buffer base pos acc with
      ⟨_, heq⟩ | ⟨m, p, heq⟩ | ⟨posE, fn, fname, wt, tn, c, pl, hlt, hle, heq, hmsg⟩
    · rw [heq]
      exact ⟨[], by simp, trivial⟩
    · rw [heq]
      exact ⟨[], by simp [mkErr], trivial⟩
    · rw [heq]
      obtain ⟨nw, hfe, hall⟩ := ih schema msgName buffer base posE
        (acc ++ [mkDF buffer base pos posE fn fname wt tn c pl]) top rest hsl
      refine ⟨mkDF buffer base pos posE fn fname wt tn c pl :: nw, ?_, ⟨?_, ?_⟩, hall⟩
      · rw [hfe]
        simp
      · -- rawBytes is the top-level slice
        show (buffer.drop pos).take (posE - pos) =
          (top.drop (pos + base)).take (posE - 1 + base + 1 - (pos + base))
        rw [slice_shift hsl (by omega)]
        rw [List.take_append_of_le_length (by rw [List.length_drop]; omega)]
        congr 1
        omega
      · -- nested content
        show contentRawOk top c
        cases c with
        | msg l =>
          obtain ⟨mn, posL, hp1, hp2, hpl, hl⟩ := hmsg l rfl
          show allRawOk top l
          have hslice : top.drop (posL + base) =
              ((buffer.drop posL).take (posE - posL)) ++
                ((buffer.drop posL).drop (posE - posL) ++ rest) := by
            rw [slice_shift hsl (by omega), ← List.append_assoc,
              List.take_append_drop]
          obtain ⟨nw', hfe', hall'⟩ := ih schema mn
            ((buffer.drop posL).take (posE - posL)) (posL + base) 0 [] top _ hslice
          rw [hl, hfe']
          simpa using hall'
        | str s => trivial
        | packed vs => trivial
        | varintC a b c => trivial
        | fixed32C a b => trivial
        | fixed64C a b => trivial

/-! ## Claim C7 -/

/-- Claim C7: in the tree returned by `decodeProtobuf` with base offset
0 (every branch of it decodes the same top-level buffer), each field's
`rawBytes` — arbitrarily deep inside embedded messages — is the exact
byte slice of the original buffer spanned by its absolute inclusive
`byteRange`. -/
theorem claim_C7 (bytes : List Nat) (protoSchema : String) :
    allRawOk bytes (decodeProtobufBytes bytes protoSchema 0).fields := by
  have hdec : ∀ (schema : ParsedSchema) (msgName : Option String),
      allRawOk bytes (decode bytes schema msgName 0).fields := by
    intro schema msgName
    obtain ⟨nw, hfe, hall⟩ := decodeFromFuel_rawOk (bytes.length + 1) schema
      msgName bytes 0 0 [] bytes [] (by simp)
    unfold decode
    rw [hfe]
    simpa using hall
  rw [decodeProtobufBytes]
  by_cases htrim : jsTrim protoSchema = ""
  · rw [if_pos htrim]
    exact hdec _ _
  · rw [if_neg htrim]
    cases hp : parseProto protoSchema with
    | error m =>
      simp only [hp]
      exact hdec _ _
    | ok pr =>
      obtain ⟨schema, root⟩ := pr
      simp only [hp]
      by_cases hc : (decode bytes schema root 0).fields.length = 0 ∧
          0 < bytes.length ∧ (decode bytes schema root 0).error.isNone = true
      · rw [if_pos hc]
        by_cases hsl : 0 < (decode bytes emptySchema none 0).fields.length
        · rw [if_pos hsl]
          exact hdec _ _
        · rw [if_neg hsl]
          exact hdec _ _
      · rw [if_neg hc]
        exact hdec _ _

/-! ## The schema-less cascade (claims C2 and C10) -/

/-- Case analysis of the three-way guess: embedded message exactly when
the nested attempt produced no error and did not decode a non-empty
payload to zero fields; otherwise strict UTF-8; otherwise hex.  In every
case a displayable content is produced. -/
theorem guessContent_spec (sub : DecodeResult) (bytes : List Nat) :
    (sub.error = none ∧ (bytes ≠ [] → sub.fields ≠ []) ∧
      guessContent sub bytes = (.msg sub.fields, "Embedded Message")) ∨
    (¬ (sub.error = none ∧ (bytes ≠ [] → sub.fields ≠ [])) ∧
      ((∃ s, utf8Decode bytes = some s ∧
          guessContent sub bytes = (.str s, "string (guessed)")) ∨
        (utf8Decode bytes = none ∧
          guessContent sub bytes = (.str (bytesToHex bytes), "bytes")))) := by
  unfold guessContent
  by_cases hc : sub.error.isNone = true ∧ ¬(0 < bytes.length ∧ sub.fields.length = 0)
  · rw [if_pos hc]
    refine .inl ⟨Option.isNone_iff_eq_none.mp hc.1, ?_, rfl⟩
    intro hb hf
    exact hc.2 ⟨List.length_pos_of_ne_nil hb, by simp [hf]⟩
  · rw [if_neg hc]
    right
    constructor
    · intro ⟨h1, h2⟩
      refine hc ⟨Option.isNone_iff_eq_none.mpr h1, ?_⟩
      rintro ⟨hlen, hflen⟩
      exact (h2 (List.ne_nil_of_length_pos hlen)) (List.eq_nil_of_length_eq_zero hflen)
    · cases hu : utf8Decode bytes with
      | some s => exact .inl ⟨s, rfl, rfl⟩
      | none => exact .inr ⟨rfl, rfl⟩

/-! ## Claim C2 -/

/-- The cascade outcome as the specification words it: embedded message
exactly when the nested schema-less attempt has no internal error and a
non-empty payload did not decode to zero fields; otherwise strict UTF-8
(`"string (guessed)"`); otherwise hex (`"bytes"`). -/
def cascadeSpec (sub : DecodeResult) (bytes : List Nat)
    (typeName : String) (content : Content) : Prop :=
  (sub.error = none ∧ (bytes ≠ [] → sub.fields ≠ []) ∧
    typeName = "Embedded Message" ∧ content = .msg sub.fields) ∨
  (¬ (sub.error = none ∧ (bytes ≠ [] → sub.fields ≠ [])) ∧
    ((∃ s, utf8Decode bytes = some s ∧
        typeName = "string (guessed)" ∧ content = .str s) ∨
      (utf8Decode bytes = none ∧
        typeName = "bytes" ∧ content = .str (bytesToHex bytes))))

/-- Claim C2: a `LENGTH_DELIMITED` field with no usable schema
information is resolved by the three-way cascade, which never raises an
error — the loop always continues past the field with a displayable
content satisfying `cascadeSpec`.  And schema-less decoding of
`1A 02 08 05` yields one top-level `"Embedded Message"` field whose
content is exactly one child field with fieldNumber 1 and unsigned
value 5. -/
theorem claim_C2 :
    (∀ (fuel : Nat) (schema : ParsedSchema) (msgName : Option String)
        (buffer : List Nat) (base pos : Nat) (acc : List DField)
        (tag posT lenN posL : Nat) (bytes : List Nat) (posE : Nat),
      pos < buffer.length →
      readVarint buffer pos = .ok (tag, posT) →
      tag &&& 7 = 2 →
      fieldDefOf schema msgName (tag >>> 3) = none →
      readVarint buffer posT = .ok (lenN, posL) →
      readBytes buffer posL lenN = .ok (bytes, posE) →
      ∃ content typeName,
        decodeFromFuel (fuel + 1) schema msgName buffer base pos acc =
          decodeFromFuel fuel schema msgName buffer base posE (acc ++
            [mkDF buffer base pos posE (tag >>> 3) none 2 typeName content
              (some (posL + base))]) ∧
        cascadeSpec (decodeFromFuel fuel schema none bytes (posL + base) 0 [])
          bytes typeName content) ∧
    decode [26, 2, 8, 5] emptySchema none 0 =
      { fields := [.mk (0, 3) 3 none 2 "Embedded Message"
          (.msg [.mk (2, 3) 1 none 0 "varint" (.varintC 5 (-3) none) [8, 5] none])
          [26, 2, 8, 5] (some 2)] } := by
  constructor
  · intro fuel schema msgName buffer base pos acc tag posT lenN posL bytes posE
      hpos htag hwt hfd hlen hbytes
    refine ⟨(guessContent (decodeFromFuel fuel schema none bytes (posL + base) 0 [])
        bytes).1,
      (guessContent (decodeFromFuel fuel schema none bytes (posL + base) 0 [])
        bytes).2, ?_, ?_⟩
    · rw [stepGuessNone hpos htag hwt hlen hbytes hfd, hwt]
    · unfold cascadeSpec
      rcases guessContent_spec
          (decodeFromFuel fuel schema none bytes (posL + base) 0 []) bytes with
        ⟨h1, h2, heq⟩ | ⟨h1, ⟨s, hu, heq⟩ | ⟨hu, heq⟩⟩
      · exact .inl ⟨h1, h2, by rw [heq], by rw [heq]⟩
      · exact .inr ⟨h1, .inl ⟨s, hu, by rw [heq], by rw [heq]⟩⟩
      · exact .inr ⟨h1, .inr ⟨hu, by rw [heq], by rw [heq]⟩⟩
  · rfl

/-- Witness for claim C2's cascade step at the buffer `1A 02 08 05`. -/
theorem claim_C2_witness :
    ∃ content typeName,
      decodeFromFuel 4 emptySchema none [26, 2, 8, 5] 0 0 [] =
        decodeFromFuel 3 emptySchema none [26, 2, 8, 5] 0 4
          ([] ++ [mkDF [26, 2, 8, 5] 0 0 4 (26 >>> 3) none 2 typeName content
            (some (2 + 0))]) ∧
      cascadeSpec (decodeFromFuel 3 emptySchema none [8, 5] (2 + 0) 0 [])
        [8, 5] typeName content :=
  claim_C2.1 3 emptySchema none [26, 2, 8, 5] 0 0 [] 26 1 2 2 [8, 5] 4
    (by norm_num) rfl rfl rfl rfl rfl

/-! ## Claim C10 -/

/-- Claim C10: in schema-less mode a `LENGTH_DELIMITED` field with a
declared length of 0 (empty payload) is accepted as an embedded message
— type name `"Embedded Message"`, content an empty child list — rather
than falling through to the string or bytes interpretation; on `1A 00`
this produces exactly one such field. -/
theorem claim_C10 :
    (∀ (fuel : Nat) (schema : ParsedSchema) (msgName : Option String)
        (buffer : List Nat) (base pos : Nat) (acc : List DField)
        (tag posT posL : Nat) (bytes : List Nat) (posE : Nat),
      pos < buffer.length →
      readVarint buffer pos = .ok (tag, posT) →
      tag &&& 7 = 2 →
      fieldDefOf schema msgName (tag >>> 3) = none →
      readVarint buffer posT = .ok (0, posL) →
      readBytes buffer posL 0 = .ok (bytes, posE) →
      decodeFromFuel (fuel + 2) schema msgName buffer base pos acc =
        decodeFromFuel (fuel + 1) schema msgName buffer base posE (acc ++
          [mkDF buffer base pos posE (tag >>> 3) none 2 "Embedded Message"
            (.msg []) (some (posL + base))])) ∧
    decode [26, 0] emptySchema none 0 =
      { fields := [.mk (0, 1) 3 none 2 "Embedded Message" (.msg [])
          [26, 0] (some 2)] } := by
  constructor
  · intro fuel schema msgName buffer base pos acc tag posT posL bytes posE
      hpos htag hwt hfd hlen hbytes
    obtain ⟨hb1, hb2, hb3⟩ := readBytes_ok_spec hbytes
    have hempty : bytes = [] := by
      rw [hb3]
      simp
    subst hempty
    rw [stepGuessNone hpos htag hwt hlen hbytes hfd, hwt]
    have hsub : decodeFromFuel (fuel + 1) schema none [] (posL + base) 0 [] =
        { fields := [] } := stepEof (by simp)
    rw [hsub]
    rfl
  · rfl

/-- Witness for claim C10's empty-payload step at the buffer `1A 00`. -/
theorem claim_C10_witness :
    decodeFromFuel 3 emptySchema none [26, 0] 0 0 [] =
      decodeFromFuel 2 emptySchema none [26, 0] 0 2 ([] ++
        [mkDF [26, 0] 0 0 2 (26 >>> 3) none 2 "Embedded Message"
          (.msg []) (some (2 + 0))]) :=
  claim_C10.1 1 emptySchema none [26, 0] 0 0 [] 26 1 2 [] 2
    (by norm_num) rfl rfl rfl rfl rfl

/-! ## Claim C3 -/

/-- The `NoMessagesFound` message. -/
def noMessagesMsg : String := "Could not find any 'message' definitions in the schema."

/-- Claim C3: a schema problem never blocks decoding.
1. If the schema text fails to parse, `decodeProtobuf` decodes
   schema-less and prepends the schema warning to any resulting decode
   error (returning the fallback's fields and diagnostics unchanged).
2. The only parse failure is `NoMessagesFound`, raised exactly for
   non-blank text with zero message definitions (a successful parse of
   non-blank text always carries at least one message).
3. If the schema parses but decoding against it yields zero fields on a
   non-empty buffer with no error, and the schema-less retry yields at
   least one field, the schema-less result is returned with the
   schema-did-not-match warning as its error.
4. The antecedent of part 3 is in fact unreachable: on a non-empty
   buffer a decode always produces at least one field or an error. -/
theorem claim_C3 :
    (∀ (bytes : List Nat) (text : String) (base : Nat) (m : String),
      parseProto text = .error m → jsTrim text ≠ "" →
      (decodeProtobufBytes bytes text base).fields =
          (decode bytes emptySchema none base).fields ∧
        (decodeProtobufBytes bytes text base).unparsedHex =
          (decode bytes emptySchema none base).unparsedHex ∧
        (decodeProtobufBytes bytes text base).errorBytePos =
          (decode bytes emptySchema none base).errorBytePos ∧
        (∀ e, (decode bytes emptySchema none base).error = some e →
          (decodeProtobufBytes bytes text base).error =
            some (schemaFailWarning m ++ "\n\nDecoding Error: " ++ e)) ∧
        ((decode bytes emptySchema none base).error = none →
          (decodeProtobufBytes bytes text base).error =
            some (schemaFailWarning m))) ∧
    ((∀ (text m : String), parseProto text = .error m →
        m = noMessagesMsg ∧ jsTrim text ≠ "") ∧
      (∀ (text : String) (schema : ParsedSchema) (root : Option String),
        parseProto text = .ok (schema, root) → jsTrim text ≠ "" →
        schema.messages ≠ [])) ∧
    (∀ (bytes : List Nat) (text : String) (base : Nat)
        (schema : ParsedSchema) (root : Option String),
      parseProto text = .ok (schema, root) → jsTrim text ≠ "" →
      (decode bytes schema root base).fields = [] → bytes ≠ [] →
      (decode bytes schema root base).error = none →
      (decode bytes emptySchema none base).fields ≠ [] →
      decodeProtobufBytes bytes text base =
        { decode bytes emptySchema none base with
          error := some schemaMismatchWarning }) ∧
    (∀ (bytes : List Nat) (schema : ParsedSchema) (root : Option String)
        (base : Nat),
      bytes ≠ [] →
      ¬ ((decode bytes schema root base).fields = [] ∧
        (decode bytes schema root base).error = none)) := by
  refine ⟨?_, ⟨?_, ?_⟩, ?_, ?_⟩
  · intro bytes text base m hpe htrim
    have heq : decodeProtobufBytes bytes text base =
        { decode bytes emptySchema none base with
          error := some (match (decode bytes emptySchema none base).error with
            | some e => schemaFailWarning m ++ "\n\nDecoding Error: " ++ e
            | none => schemaFailWarning m) } := by
      rw [decodeProtobufBytes, if_neg htrim]
      simp only [hpe]
    rw [heq]
    refine ⟨rfl, rfl, rfl, ?_, ?_⟩
    · intro e he
      simp only [he]
    · intro he
      simp only [he]
  · intro text m hpe
    simp only [parseProto] at hpe
    split at hpe
    · rename_i hc
      simp only [Except.error.injEq] at hpe
      exact ⟨hpe.symm, hc.2⟩
    · cases hpe
  · intro text schema root hpe htrim
    simp only [parseProto] at hpe
    split at hpe
    · cases hpe
    · rename_i hc
      simp only [Except.ok.injEq, Prod.mk.injEq] at hpe
      obtain ⟨h1, h2⟩ := hpe
      subst h1
      intro hnil
      exact hc ⟨List.length_eq_zero.mpr hnil, htrim⟩
  · intro bytes text base schema root hpe htrim hfz hbne herr hslne
    rw [decodeProtobufBytes, if_neg htrim]
    simp only [hpe]
    rw [if_pos ⟨by rw [hfz]; rfl, List.length_pos_of_ne_nil hbne,
      by rw [herr]; rfl⟩]
    rw [if_pos (List.length_pos_of_ne_nil hslne)]
  · intro bytes schema root base hbne hcontra
    obtain ⟨hfz, herr⟩ := hcontra
    have hlen : 0 < bytes.length := List.length_pos_of_ne_nil hbne
    rcases decodeFromFuel_progress bytes.length schema root bytes base 0 []
        (by omega) with h | h
    · exact h herr
    · rw [show (decodeFromFuel (bytes.length + 1) schema root bytes base 0 []) =
          decode bytes schema root base from rfl] at h
      rw [hfz] at h
      simp at h

/-- Witness for claim C3 at the schema text `"x"` (non-blank, no
message definitions) over the buffer `[8, 5]`. -/
theorem claim_C3_witness :
    ((decodeProtobufBytes [8, 5] "x" 0).fields =
        (decode [8, 5] emptySchema none 0).fields ∧
      (decodeProtobufBytes [8, 5] "x" 0).unparsedHex =
        (decode [8, 5] emptySchema none 0).unparsedHex ∧
      (decodeProtobufBytes [8, 5] "x" 0).errorBytePos =
        (decode [8, 5] emptySchema none 0).errorBytePos ∧
      (∀ e, (decode [8, 5] emptySchema none 0).error = some e →
        (decodeProtobufBytes [8, 5] "x" 0).error =
          some (schemaFailWarning noMessagesMsg ++ "\n\nDecoding Error: " ++ e)) ∧
      ((decode [8, 5] emptySchema none 0).error = none →
        (decodeProtobufBytes [8, 5] "x" 0).error =
          some (schemaFailWarning noMessagesMsg))) ∧
    (noMessagesMsg = noMessagesMsg ∧ jsTrim "x" ≠ "") ∧
    ¬ ((decode [8, 5] emptySchema none 0).fields = [] ∧
      (decode [8, 5] emptySchema none 0).error = none) := by
  refine ⟨?_, ?_, ?_⟩
  · exact claim_C3.1 [8, 5] "x" 0 noMessagesMsg rfl (by decide)
  · exact claim_C3.2.1.1 "x" noMessagesMsg rfl
  · exact claim_C3.2.2.2 [8, 5] emptySchema none 0 (by decide)

/-! ## Repeated-field grouping of the JSON projection (claim C8)

The specification describes `decodedFieldsToJson` by grouping: fields
are bucketed by key in encounter order; a key seen once keeps its scalar
value, a key seen more than once becomes the array of all its values in
order, and the post-pass flattens together packed-array and
promoted-array values of one key.  The following definitions state that
description directly; the claim theorem proves the source fold equal to
it. -/

/-- Key/value projection of a field list (the key and value computed by
the converter for each field). -/
def pairsOf (fields : List DField) : List (String × JsonValue) :=
  fields.map (fun f =>
    (jsonKey f.fieldName f.fieldNumber, getPrimitiveValue f.content f.typeName))

/-- All values for key `k`, in encounter order. -/
def valuesFor (k : String) (ps : List (String × JsonValue)) : List JsonValue :=
  (ps.filter (fun p => p.1 == k)).map (fun p => p.2)

/-- Keys in first-occurrence order, skipping those already `seen`. -/
def keysInOrderAux : List (String × JsonValue) → List String → List String
  | [], _ => []
  | (k, _) :: ps, seen =>
    if k ∈ seen then keysInOrderAux ps seen
    else k :: keysInOrderAux ps (seen ++ [k])

/-- Keys in first-occurrence order. -/
def keysInOrder (ps : List (String × JsonValue)) : List String :=
  keysInOrderAux ps []

/-- Specification-side grouping of one key's values: a single occurrence
stays a scalar, repeated occurrences become the array of all values. -/
def specGroup : List JsonValue → JsonValue
  | [v] => v
  | vs => .jArr vs

/-- The per-entry operation of the converter's post-pass. -/
def postFlat : JsonValue → JsonValue
  | .jArr xs => if xs.any isJArr then .jArr (flatOne xs) else .jArr xs
  | v => v

/-- The specification-side object: keys in first-occurrence encounter
order, each mapped to its grouped and then flattened value. -/
def specJson (fields : List DField) : List (String × JsonValue) :=
  (keysInOrder (pairsOf fields)).map
    (fun k => (k, postFlat (specGroup (valuesFor k (pairsOf fields)))))

/-- The source fold over already-projected key/value pairs. -/
def insertPairs (ps : List (String × JsonValue))
    (acc : List (String × JsonValue)) : List (String × JsonValue) :=
  ps.foldl (fun a p => objInsert a p.1 p.2) acc

/-- Extending an existing entry value by later values of the same key
(`push`-semantics of the source). -/
def extendVal (v : JsonValue) (vs : List JsonValue) : JsonValue :=
  vs.foldl pushJson v

/-- The entries the fold appends for keys not present in the
accumulator, in first-occurrence order. -/
def buildNew : List (String × JsonValue) → List String → List (String × JsonValue)
  | [], _ => []
  | (k, v) :: ps, seen =>
    if k ∈ seen then buildNew ps seen
    else (k, extendVal v (valuesFor k ps)) :: buildNew ps (seen ++ [k])

/-- An array value produced by `getPrimitiveValue` contains no nested
arrays (packed arrays hold scalars; an empty child list yields `[]`). -/
def jsonValFlat : JsonValue → Prop
  | .jArr xs => ∀ x ∈ xs, isJArr x = false
  | _ => True

/-- The head-or-elements view used to relate push-extension to the
specification's promoted array. -/
def expandArr : JsonValue → List JsonValue
  | .jArr xs => xs
  | v => [v]

set_option maxHeartbeats 1600000 in
theorem getPrimitiveValue_flat (c : Content) (t : String) :
    jsonValFlat (getPrimitiveValue c t) := by
  cases c with
  | str s =>
    simp only [getPrimitiveValue]
    by_cases h : t = "string" ∨ t = "string (guessed)"
    · rw [if_pos h]
      exact True.intro
    · rw [if_neg h]
      exact True.intro
  | msg l =>
    cases l with
    | nil =>
      simp only [getPrimitiveValue]
      intro x hx
      cases hx
    | cons f fs =>
      simp only [getPrimitiveValue]
      exact True.intro
  | packed vs =>
    simp only [getPrimitiveValue]
    intro x hx
    simp only [List.mem_map] at hx
    obtain ⟨pv, _, hpv⟩ := hx
    cases pv with
    | big i =>
      rw [← hpv]
      simp only [packedItemToJson, bigIntToJson]
      by_cases hc : i ≤ (maxSafeInteger : Int) ∧ -(maxSafeInteger : Int) ≤ i
      · rw [if_pos hc]
        rfl
      · rw [if_neg hc]
        rfl
    | num n =>
      rw [← hpv]
      rfl
  | varintC u s e =>
    simp only [getPrimitiveValue]
    by_cases h : (t.toLower).startsWith "sint" = true
    · by_cases h2 : s ≤ (maxSafeInteger : Int) ∧ -(maxSafeInteger : Int) ≤ s
      · rw [if_pos h, bigIntToJson, if_pos h2]
        exact True.intro
      · rw [if_pos h, bigIntToJson, if_neg h2]
        exact True.intro
    · by_cases h2 : u ≤ maxSafeInteger
      · rw [if_neg h, bigUintToJson, if_pos h2]
        exact True.intro
      · rw [if_neg h, bigUintToJson, if_neg h2]
        exact True.intro
  | fixed32C u i =>
    simp only [getPrimitiveValue]
    by_cases h : t.toLower = "float"
    · rw [if_pos h]
      exact True.intro
    · by_cases h2 : (t.toLower).startsWith "sfixed" = true
      · rw [if_neg h, if_pos h2]
        exact True.intro
      · rw [if_neg h, if_neg h2]
        exact True.intro
  | fixed64C u i =>
    simp only [getPrimitiveValue]
    by_cases h : t.toLower = "double"
    · rw [if_pos h]
      exact True.intro
    · by_cases h2 : (t.toLower).startsWith "sfixed" = true
      · by_cases h3 : i ≤ (maxSafeInteger : Int) ∧ -(maxSafeInteger : Int) ≤ i
        · rw [if_neg h, if_pos h2, bigIntToJson, if_pos h3]
          exact True.intro
        · rw [if_neg h, if_pos h2, bigIntToJson, if_neg h3]
          exact True.intro
      · by_cases h3 : u ≤ maxSafeInteger
        · rw [if_neg h, if_neg h2, bigUintToJson, if_pos h3]
          exact True.intro
        · rw [if_neg h, if_neg h2, bigUintToJson, if_neg h3]
          exact True.intro

theorem flatOne_append (a b : List JsonValue) :
    flatOne (a ++ b) = flatOne a ++ flatOne b := by
  induction a with
  | nil => rfl
  | cons x xs ih =>
    cases x <;> simp [flatOne, ih]

theorem flatOne_of_flat {l : List JsonValue} (h : ∀ x ∈ l, isJArr x = false) :
    flatOne l = l := by
  induction l with
  | nil => rfl
  | cons x xs ih =>
    have hx := h x (by simp)
    have ih' := ih (fun y hy => h y (by simp [hy]))
    cases x <;> simp_all [flatOne, isJArr]

/-- Push-extension in closed form: by at least one later value, the
entry becomes the array of the first value's elements (itself, if not an
array) followed by the later values. -/
theorem extendVal_shape (vs : List JsonValue) :
    ∀ (v : JsonValue), vs ≠ [] → extendVal v vs = .jArr (expandArr v ++ vs) := by
  induction vs with
  | nil => intro v h; exact absurd rfl h
  | cons w ws ih =>
    intro v _
    show extendVal (pushJson v w) ws = _
    cases hws : ws with
    | nil =>
      show pushJson v w = _
      cases v <;> simp [pushJson, expandArr]
    | cons w' ws' =>
      rw [← hws, ih (pushJson v w) (by rw [hws]; simp)]
      have hexp : expandArr (pushJson v w) = expandArr v ++ [w] := by
        cases v <;> simp [pushJson, expandArr]
      rw [hexp]
      simp

/-- Per-key agreement of the fold's final value with the
specification's grouped value, after the flattening post-pass. -/
theorem group_code_eq_spec (v : JsonValue) (vs : List JsonValue)
    (hv : jsonValFlat v) :
    postFlat (extendVal v vs) = postFlat (specGroup (v :: vs)) := by
  cases vs with
  | nil => rfl
  | cons w ws =>
    rw [extendVal_shape (w :: ws) v (by simp)]
    have hspec : specGroup (v :: w :: ws) = .jArr (v :: w :: ws) := rfl
    rw [hspec]
    cases v with
    | jArr xs =>
      have hxs : ∀ x ∈ xs, isJArr x = false := hv
      have hxsany : xs.any isJArr = false := by
        rw [List.any_eq_false]
        intro x hx
        simp [hxs x hx]
      simp only [expandArr, postFlat]
      have hhead : (JsonValue.jArr xs :: w :: ws).any isJArr = true := by
        simp [isJArr]
      rw [if_pos hhead]
      have hflat : flatOne (JsonValue.jArr xs :: w :: ws) =
          xs ++ flatOne (w :: ws) := by
        simp [flatOne]
      rw [hflat]
      by_cases hrest : (w :: ws).any isJArr = true
      · have : (xs ++ w :: ws).any isJArr = true := by
          rw [List.any_append, hxsany, hrest]
          rfl
        rw [if_pos this, flatOne_append, flatOne_of_flat hxs]
      · have hrest' : (w :: ws).any isJArr = false := by
          simpa using hrest
        have : (xs ++ w :: ws).any isJArr = false := by
          rw [List.any_append, hxsany, hrest']
          rfl
        rw [if_neg (by simp [this])]
        have hfl : flatOne (w :: ws) = w :: ws := by
          apply flatOne_of_flat
          intro x hx
          have := List.any_eq_false.mp hrest' x hx
          simpa using this
        rw [hfl]
    | jNum n =>
      simp [expandArr]
    | jStr s =>
      simp [expandArr]
    | jObj o =>
      simp [expandArr]

theorem mem_keys_find (acc : List (String × JsonValue)) (k : String) :
    (acc.find? (fun p => p.1 == k)).isSome = true ↔ k ∈ acc.map Prod.fst := by
  rw [List.find?_isSome]
  constructor
  · rintro ⟨p, hp, hpk⟩
    exact List.mem_map.mpr ⟨p, hp, by simpa using hpk⟩
  · intro hmem
    obtain ⟨p, hp, hpk⟩ := List.mem_map.mp hmem
    exact ⟨p, hp, by simpa using hpk⟩

theorem valuesFor_cons (q kp : String) (v : JsonValue)
    (ps : List (String × JsonValue)) :
    valuesFor q ((kp, v) :: ps) =
      if kp = q then v :: valuesFor q ps else valuesFor q ps := by
  by_cases h : kp = q
  · rw [if_pos h]
    simp [valuesFor, List.filter_cons, h]
  · rw [if_neg h]
    simp [valuesFor, List.filter_cons, h]

theorem insertPairs_char :
    ∀ (ps acc : List (String × JsonValue)),
      insertPairs ps acc =
        acc.map (fun e => (e.1, extendVal e.2 (valuesFor e.1 ps))) ++
          buildNew ps (acc.map Prod.fst) := by
  intro ps
  induction ps with
  | nil =>
    intro acc
    show acc = _
    simp [buildNew, valuesFor, extendVal, List.filter]
  | cons p ps ih =>
    intro acc
    obtain ⟨k, v⟩ := p
    show insertPairs ps (objInsert acc k v) = _
    rw [ih (objInsert acc k v)]
    by_cases hk : k ∈ acc.map Prod.fst
    · have hfind : (acc.find? (fun p => p.1 == k)).isSome = true :=
        (mem_keys_find acc k).mpr hk
      have hobj : objInsert acc k v =
          acc.map (fun p => if p.1 == k then (p.1, pushJson p.2 v) else p) := by
        rw [objInsert, if_pos hfind]
      have hbn : buildNew ((k, v) :: ps) (acc.map Prod.fst) =
          buildNew ps (acc.map Prod.fst) := by
        show (if k ∈ acc.map Prod.fst then _ else _) = _
        rw [if_pos hk]
      have hkeys : (acc.map
            (fun p => if p.1 == k then (p.1, pushJson p.2 v) else p)).map
            Prod.fst = acc.map Prod.fst := by
        rw [List.map_map]
        apply List.map_congr_left
        intro e _
        simp only [Function.comp_apply]
        by_cases h : (e.1 == k) = true
        · rw [if_pos h]
        · rw [if_neg h]
      rw [hobj, hkeys, hbn]
      congr 1
      rw [List.map_map]
      apply List.map_congr_left
      intro e _
      simp only [Function.comp_apply]
      by_cases h : e.1 = k
      · rw [if_pos (by simpa using h)]
        show (e.1, extendVal (pushJson e.2 v) (valuesFor e.1 ps)) = _
        rw [valuesFor_cons, if_pos h.symm]
        rfl
      · rw [if_neg (by simpa using h)]
        rw [valuesFor_cons, if_neg (fun he => h he.symm)]
    · have hfind : ¬ (acc.find? (fun p => p.1 == k)).isSome = true := by
        rw [mem_keys_find]
        exact hk
      have hobj : objInsert acc k v = acc ++ [(k, v)] := by
        rw [objInsert, if_neg hfind]
      have hbn : buildNew ((k, v) :: ps) (acc.map Prod.fst) =
          (k, extendVal v (valuesFor k ps)) ::
            buildNew ps (acc.map Prod.fst ++ [k]) := by
        show (if k ∈ acc.map Prod.fst then _ else _) = _
        rw [if_neg hk]
      rw [hobj, hbn]
      simp only [List.map_append, List.map_cons, List.map_nil]
      rw [List.append_assoc]
      congr 1
      apply List.map_congr_left
      intro e he
      have h : e.1 ≠ k := by
        intro heq
        exact hk (List.mem_map.mpr ⟨e, he, heq⟩)
      rw [valuesFor_cons, if_neg (fun heq => h heq.symm)]

theorem insertFieldsJson_eq :
    ∀ (fields : List DField) (acc : List (String × JsonValue)),
      insertFieldsJson fields acc = insertPairs (pairsOf fields) acc := by
  intro fields
  induction fields with
  | nil => intro acc; rfl
  | cons f fs ih =>
    intro acc
    cases f with
    | mk br fn fname w tn c rb ps =>
      show insertFieldsJson fs _ = _
      rw [ih]
      rfl

theorem jsonPostPass_map (es : List (String × JsonValue)) :
    jsonPostPass es = es.map (fun e => (e.1, postFlat e.2)) := by
  unfold jsonPostPass
  apply List.map_congr_left
  intro e _
  cases he : e.2 with
  | jArr xs =>
    by_cases hc : xs.any isJArr = true
    · simp [postFlat, hc]
    · simp only [Bool.not_eq_true] at hc
      simp [postFlat, hc]
  | jNum n => simp [postFlat]
  | jStr s => simp [postFlat]
  | jObj o => simp [postFlat]

theorem keysInOrderAux_not_mem :
    ∀ (ps : List (String × JsonValue)) (seen : List String) (k : String),
      k ∈ keysInOrderAux ps seen → k ∉ seen := by
  intro ps
  induction ps with
  | nil => intro seen k h; cases h
  | cons p ps ih =>
    intro seen k h
    obtain ⟨k', v⟩ := p
    simp only [keysInOrderAux] at h
    by_cases hmem : k' ∈ seen
    · rw [if_pos hmem] at h
      exact ih seen k h
    · rw [if_neg hmem] at h
      rcases List.mem_cons.mp h with rfl | h2
      · exact hmem
      · intro hkseen
        exact ih (seen ++ [k']) k h2 (List.mem_append_left _ hkseen)

theorem buildNew_postPass :
    ∀ (ps : List (String × JsonValue)) (seen : List String),
      (∀ p ∈ ps, jsonValFlat p.2) →
      (buildNew ps seen).map (fun e => (e.1, postFlat e.2)) =
        (keysInOrderAux ps seen).map
          (fun k => (k, postFlat (specGroup (valuesFor k ps)))) := by
  intro ps
  induction ps with
  | nil => intro seen _; rfl
  | cons p ps ih =>
    intro seen hflat
    obtain ⟨k, v⟩ := p
    simp only [buildNew, keysInOrderAux]
    by_cases hmem : k ∈ seen
    · rw [if_pos hmem, if_pos hmem]
      rw [ih seen (fun q hq => hflat q (by simp [hq]))]
      apply List.map_congr_left
      intro k' hk'
      have hk'ne : k' ≠ k := by
        intro he
        exact (keysInOrderAux_not_mem ps seen k' hk') (he ▸ hmem)
      rw [valuesFor_cons, if_neg (fun he => hk'ne he.symm)]
    · rw [if_neg hmem, if_neg hmem]
      simp only [List.map_cons]
      congr 1
      · rw [valuesFor_cons, if_pos rfl]
        rw [group_code_eq_spec v (valuesFor k ps) (hflat (k, v) (by simp))]
      · rw [ih (seen ++ [k]) (fun q hq => hflat q (by simp [hq]))]
        apply List.map_congr_left
        intro k' hk'
        have hk'ne : k' ≠ k := by
          intro he
          have := keysInOrderAux_not_mem ps (seen ++ [k]) k' hk'
          exact this (by simp [he])
        rw [valuesFor_cons, if_neg (fun he => hk'ne he.symm)]

/-! ## Claim C8 -/

/-- Claim C8: `decodedFieldsToJson` groups fields by key (`fieldName` if
known, else `unknown_field_<number>`) in encounter order — the first
occurrence of a key is stored as a scalar, later occurrences extend it
to the array of all that key's values in order, and the post-pass
flattens together packed-array and promoted-array values sharing one
key — i.e. the fold equals the specification-side object `specJson`
built by per-key grouping. -/
theorem claim_C8 (fields : List DField) :
    decodedFieldsToJson fields = .jObj (specJson fields) := by
  unfold decodedFieldsToJson specJson keysInOrder
  rw [insertFieldsJson_eq fields [], insertPairs_char (pairsOf fields) [],
    jsonPostPass_map]
  simp only [List.map_nil, List.nil_append]
  have hf : ∀ p ∈ pairsOf fields, jsonValFlat p.2 := by
    intro p hp
    simp only [pairsOf, List.mem_map] at hp
    obtain ⟨f, _, hfe⟩ := hp
    rw [← hfe]
    exact getPrimitiveValue_flat f.content f.typeName
  rw [buildNew_postPass (pairsOf fields) [] hf]

/-! ## Claim C9 -/

/-- Claim C9, counterexample to the claim as stated: the hex input
`"08ZZ"` is rejected with the fixed message `"Invalid hex character"`,
which does not name the offending character `Z`. -/
theorem claim_C9_counterexample :
    decodeProtobuf (.inl "08ZZ") "" 0 = .error "Invalid hex character" ∧
    ¬ ('Z' ∈ "Invalid hex character".toList) := by
  constructor
  · rfl
  · decide

/-- Claim C9 (amended): a hex input string rejected by `hexToBytes`
(in particular one containing a non-hex character) makes `decodeProtobuf`
fail with that input-validation error before any wire decoding occurs —
no `DecodeResult` is produced — but the error message is the fixed text
`"Invalid hex character"`, which does not name the offending
character. -/
theorem claim_C9 (s protoSchema : String) (base : Nat) (m : String)
    (h : hexToBytes s = .error m) :
    decodeProtobuf (.inl s) protoSchema base = .error m := by
  simp [decodeProtobuf, h, Except.map]

/-- Witness for claim C9 at the input `"08ZZ"`. -/
theorem claim_C9_witness :
    decodeProtobuf (.inl "08ZZ") "x" 3 = .error "Invalid hex character" :=
  claim_C9 "08ZZ" "x" 3 "Invalid hex character" rfl



